import Mathlib

/-!
# dazcon: the Reader / Consensus / Writer pipeline of `src/cpp/dazcon.cpp`

A shallow embedding of the three thread bodies of `dazcon.cpp` and of the
way `main` wires them over two bounded FIFO buffers.

* A `std::string` is a `String` (one `Char` per `char`), a `std::vector` a
  `List`, an `unsigned int` option a `Nat`, and a C++ `int` an `Int` that is
  wrapped with `wrapInt32` wherever the code increments it.
* Each thread body is a function from the sequence of values its blocking
  calls return (`nextTarget`, `trgBuf.pop`, `cnsBuf.pop`) to the trace of
  operations it performs; a body that needs a value the sequence does not
  hold stays blocked in that call.
* `Alignment.hpp`, `AlnGraphBoost.hpp`, `DazAlnProvider.hpp`,
  `BoundedBuffer.hpp` and `ProgramOpts.hpp` are not part of the sources;
  what the code uses of them is a parameter (`AlnToolkit`) or is modelled
  from the specification, as said at each definition.
-/

namespace Dazcon

/-! ## Data model -/

/-- Value of a 32-bit two's-complement C++ `int` holding the mathematical
integer `x` after wrap-around. -/
def wrapInt32 (x : Int) : Int := (x + 2147483648) % 4294967296 - 2147483648

/-- The statement `++c` on a 32-bit `int`. At `INT_MAX` the C++ standard
leaves the result undefined; the embedding takes the two's-complement
wrap-around that the hardware performs. -/
def increment (c : Int) : Int := wrapInt32 (c + 1)

/-- Modelled from the spec: `dagcon::Alignment` (declared in `Alignment.hpp`,
which is missing): identifier, aligned query string, aligned target string
and the coordinate range on the template. -/
structure Alignment where
  id : String
  qstr : String
  tstr : String
  tstart : Nat
  tend : Nat
deriving DecidableEq, Repr

/-- The type `AlnVec` of the source: `std::vector<dagcon::Alignment>`. -/
abbrev AlnVec := List Alignment

/-- The struct `TargetData` of the source. -/
structure TargetData where
  targSeq : String
  alns : AlnVec
deriving DecidableEq, Repr

/-- Modelled from the spec: the fields of the global `popts`
(`ProgramOpts.hpp` is missing) that `Reader`, `Consensus` and `Writer` read.
`threads` is an `int`, the other three are `unsigned int`. -/
structure ProgramOpts where
  threads : Int
  minCov : Nat
  minLen : Nat
  trim : Nat
deriving DecidableEq, Repr

/-- A default-constructed `TargetData`, as in `TargetData sentinel;`. -/
def sentinel : TargetData := { targSeq := "", alns := [] }

/-! ## Reader (lines 38-59) -/

/-- Modelled from the spec: what one call `ap->nextTarget(td.targSeq, td.alns)`
does (`DazAlnProvider.hpp` is missing): it either fills both out-parameters
and returns the "more remain" flag, or throws `PacBio::DagCon::IOException`. -/
inductive NextTarget where
  | ok (targSeq : String) (alns : AlnVec) (hasNext : Bool)
  | ioException (what : String)
deriving DecidableEq, Repr

/-- How control leaves the `try` block of `Reader`. -/
inductive TryExit where
  | fellThrough
  | caught (what : String)
  | awaitingProvider
deriving DecidableEq, Repr

/-- The `do { ... } while (hasNext);` loop of `Reader`. `calls` holds the
results of the successive `nextTarget` calls, `pushed` the items pushed to
`trgBuf` so far. -/
def Reader.doWhile : List NextTarget → List TargetData → List TargetData × TryExit
  | [], pushed => (pushed, .awaitingProvider)
  | .ioException what :: _, pushed => (pushed, .caught what)
  | .ok targSeq alns hasNext :: calls, pushed =>
    let td : TargetData := { targSeq := targSeq, alns := alns }
    let pushed := if !td.alns.isEmpty then pushed ++ [td] else pushed
    if hasNext then Reader.doWhile calls pushed else (pushed, .fellThrough)

/-- The loop `for (int i=0; i < popts.threads; i++) trgBuf.push(sentinel);`,
given the number of iterations left. -/
def Reader.pushSentinels : Nat → List TargetData → List TargetData
  | 0, pushed => pushed
  | n + 1, pushed => Reader.pushSentinels n (pushed ++ [sentinel])

/-- How a run of `Reader` ends. -/
inductive ReaderStatus where
  | returned
  | exited (code : Int)
  | awaitingProvider
deriving DecidableEq, Repr

/-- What a run of `Reader` does: the items pushed to `trgBuf` in order, the
text written to `std::cerr`, and how the run ends. -/
structure ReaderRun where
  pushed : List TargetData
  cerr : String
  status : ReaderStatus
deriving DecidableEq, Repr

/-- The function `Reader` of the source, run against the results `calls` of
the provider's successive `nextTarget` calls. Every `push` is taken to
return. The sentinel loop makes `popts.threads` iterations, none when
`popts.threads` is negative. -/
def Reader (popts : ProgramOpts) (calls : List NextTarget) : ReaderRun :=
  match Reader.doWhile calls [] with
  | (pushed, .caught what) => { pushed := pushed, cerr := what, status := .exited 1 }
  | (pushed, .awaitingProvider) => { pushed := pushed, cerr := "", status := .awaitingProvider }
  | (pushed, .fellThrough) =>
    { pushed := Reader.pushSentinels popts.threads.toNat pushed, cerr := "", status := .returned }

/-- The call result of a provider that yields the group `g` and reports more
targets. -/
def yieldMore (g : TargetData) : NextTarget := .ok g.targSeq g.alns true

/-- The call result of a provider that yields the group `g` and reports that
no target remains. -/
def yieldLast (g : TargetData) : NextTarget := .ok g.targSeq g.alns false

/-- The yielded groups that `Reader` forwards: those with at least one
alignment, in order. -/
def forwarded (groups : List TargetData) : List TargetData :=
  groups.filter (fun g => !g.alns.isEmpty)

/-! ## Writer (lines 109-120) -/

/-- How a run of `Writer` or of `Consensus` ends: it returns, or it stays
blocked in a `pop` that no item answers. -/
inductive TaskStatus where
  | returned
  | blockedInPop
deriving DecidableEq, Repr

/-- What a run of `Writer` does: the records it popped from `cnsBuf` in
order, the text written to `std::cout`, the value of `sentinelCount` at
the end, and how the run ends. -/
structure WriterRun where
  popped : List String
  cout : String
  sentinelCount : Int
  status : TaskStatus
deriving DecidableEq, Repr

/-- The test `cns == "" && ++sentinelCount == popts.threads`: whether the
loop breaks, and the value of `sentinelCount` afterwards (incremented only
when the left operand holds). -/
def Writer.breakTest (popts : ProgramOpts) (cns : String) (sentinelCount : Int) : Bool × Int :=
  if cns = "" then
    (decide (increment sentinelCount = popts.threads), increment sentinelCount)
  else
    (false, sentinelCount)

/-- The `while (true)` loop of `Writer`, entered with the record `cns` just
popped; `queue` holds the records the later `pop` calls return. -/
def Writer.whileLoop (popts : ProgramOpts) :
    List String → String → Int → List String → String → WriterRun
  | queue, cns, sentinelCount, popped, cout =>
    match Writer.breakTest popts cns sentinelCount, queue with
    | (true, sentinelCount), _ =>
      { popped := popped, cout := cout ++ cns, sentinelCount := sentinelCount,
        status := .returned }
    | (false, sentinelCount), [] =>
      { popped := popped, cout := cout ++ cns, sentinelCount := sentinelCount,
        status := .blockedInPop }
    | (false, sentinelCount), next :: queue =>
      Writer.whileLoop popts queue next sentinelCount (popped ++ [next]) (cout ++ cns)

/-- The function `Writer` of the source, run against the records `stream`
that its successive `cnsBuf.pop` calls return. -/
def Writer (popts : ProgramOpts) (stream : List String) : WriterRun :=
  match stream with
  | [] => { popped := [], cout := "", sentinelCount := 0, status := .blockedInPop }
  | cns :: queue => Writer.whileLoop popts queue cns 0 [cns] ""

/-- Concatenation of a list of records, first record first. -/
def concatRecords : List String → String
  | [] => ""
  | r :: rs => r ++ concatRecords rs

/-! ## Consensus worker (lines 61-107) -/

/-- Modelled from the spec: `CnsResult` (declared in `AlnGraphBoost.hpp`,
which is missing): the window `range[0]`, `range[1]` and the corrected
sequence. -/
structure CnsResult where
  range0 : Int
  range1 : Int
  seq : String
deriving DecidableEq, Repr

/-- Modelled from the spec: the external operations `Consensus` calls, none
of which is part of the sources. `normalizeGaps` returns a normalized copy,
`trimAln` trims the copy it is given, `newGraph` is the constructor
`AlnGraphBoost ag(targSeq)`, and `consensus ag minCov minLen` is the content
the call `ag.consensus(seqs, minCov, minLen)` leaves in `seqs`. `G` is the
state of the alignment graph. -/
structure AlnToolkit (G : Type) where
  normalizeGaps : Alignment → Alignment
  trimAln : Alignment → Nat → Alignment
  newGraph : String → G
  addAln : G → Alignment → G
  mergeNodes : G → G
  consensus : G → Nat → Nat → List CnsResult

/-- An argument fed to a `boost::format` object with `%`. -/
inductive FmtArg where
  | str (s : String)
  | int (i : Int)
deriving DecidableEq, Repr

/-- Text of one argument: a string verbatim, an `int` in decimal. -/
def FmtArg.render : FmtArg → String
  | .str s => s
  | .int i => toString i

/-- Rendering of a format string whose directives are `%s` and `%d`: each
directive is replaced by the next argument, every other character is
copied. -/
def formatGo : List Char → List FmtArg → String
  | [], _ => ""
  | '%' :: 's' :: cs, a :: as => a.render ++ formatGo cs as
  | '%' :: 'd' :: cs, a :: as => a.render ++ formatGo cs as
  | c :: cs, as => String.singleton c ++ formatGo cs as

/-- A `boost::format` object: its format string and the arguments fed so
far. -/
structure BoostFormat where
  fmt : String
  args : List FmtArg
deriving DecidableEq, Repr

/-- The constructor `boost::format f(fmt)`. -/
def BoostFormat.new (fmt : String) : BoostFormat := { fmt := fmt, args := [] }

/-- The operator `f % a`. -/
def BoostFormat.feed (f : BoostFormat) (a : FmtArg) : BoostFormat :=
  { f with args := f.args ++ [a] }

/-- The method `f.str()`. -/
def BoostFormat.str (f : BoostFormat) : String := formatGo f.fmt.toList f.args

/-- The expression `alns[0].id`. The vector is never empty where the code
evaluates it: the loop guard gives `td.alns.size() > 0`. -/
def frontId : AlnVec → String
  | [] => ""
  | a :: _ => a.id

/-- One operation a worker performs on the buffers or on the graph. -/
inductive Event where
  | pop (td : TargetData)
  | newGraph (targSeq : String)
  | addAln (aln : Alignment)
  | mergeNodes
  | consensus (minCov : Nat) (minLen : Nat)
  | push (cns : String)
deriving DecidableEq, Repr

/-- The local variables of `Consensus` that live across loop iterations. -/
structure Locals where
  fake_well_counter : Int
  td : TargetData
  seqs : List CnsResult
deriving DecidableEq, Repr

/-- The loop over `alns` (lines 78-85): the graph after the loop and the
`addAln` calls made. -/
def Consensus.addAlns {G : Type} (popts : ProgramOpts) (tk : AlnToolkit G) :
    AlnVec → G → G × List Event
  | [], ag => (ag, [])
  | it :: rest, ag =>
    if it.qstr.length < popts.minLen then
      Consensus.addAlns popts tk rest ag
    else
      ((Consensus.addAlns popts tk rest
          (tk.addAln ag (tk.trimAln (tk.normalizeGaps it) popts.trim))).1,
        Event.addAln (tk.trimAln (tk.normalizeGaps it) popts.trim) ::
          (Consensus.addAlns popts tk rest
            (tk.addAln ag (tk.trimAln (tk.normalizeGaps it) popts.trim))).2)

/-- The object `fasta` of line 92 after the five arguments are fed. -/
def Consensus.fasta (alns : AlnVec) (fake_well_counter : Int) (result : CnsResult) :
    BoostFormat :=
  ((((((BoostFormat.new ">%s/%d/%d_%d\n%s\n").feed (.str (frontId alns))).feed
    (.int fake_well_counter)).feed (.int result.range0)).feed (.int result.range1)).feed
    (.str result.seq))

/-- The loop over `seqs` (lines 90-100): the value of `fake_well_counter`
after the loop and the pushes made. -/
def Consensus.pushSeqs (alns : AlnVec) : List CnsResult → Int → Int × List Event
  | [], fake_well_counter => (fake_well_counter, [])
  | result :: rest, fake_well_counter =>
    ((Consensus.pushSeqs alns rest (increment fake_well_counter)).1,
      Event.push (Consensus.fasta alns fake_well_counter result).str ::
        (Consensus.pushSeqs alns rest (increment fake_well_counter)).2)

/-- The graph on which `consensus` is called for the group `td`. -/
def Consensus.graph {G : Type} (popts : ProgramOpts) (tk : AlnToolkit G) (td : TargetData) : G :=
  tk.mergeNodes (Consensus.addAlns popts tk td.alns (tk.newGraph td.targSeq)).1

/-- One pass through the body of the `while` loop (lines 69-100), up to but
not including the `trgBuf.pop(&td)` that ends both of its paths: the local
variables afterwards and the operations performed. -/
def Consensus.body {G : Type} (popts : ProgramOpts) (tk : AlnToolkit G) (st : Locals) :
    Locals × List Event :=
  if st.td.alns.length < popts.minCov then
    (st, [])
  else
    ({ fake_well_counter :=
          (Consensus.pushSeqs st.td.alns
            (tk.consensus (Consensus.graph popts tk st.td) popts.minCov popts.minLen)
            st.fake_well_counter).1
       td := st.td
       seqs := tk.consensus (Consensus.graph popts tk st.td) popts.minCov popts.minLen },
      Event.newGraph st.td.targSeq ::
        ((Consensus.addAlns popts tk st.td.alns (tk.newGraph st.td.targSeq)).2 ++
          Event.mergeNodes :: Event.consensus popts.minCov popts.minLen ::
            (Consensus.pushSeqs st.td.alns
              (tk.consensus (Consensus.graph popts tk st.td) popts.minCov popts.minLen)
              st.fake_well_counter).2))

/-- What a run of `Consensus` does: the local variables at the end, the
operations performed in order, and how the run ends. -/
structure WorkerRun where
  locals : Locals
  events : List Event
  status : TaskStatus
deriving DecidableEq, Repr

/-- The run `run` preceded by the operations `evs`. -/
def WorkerRun.after (evs : List Event) (run : WorkerRun) : WorkerRun :=
  { run with events := evs ++ run.events }

/-- The `while (td.alns.size() > 0)` loop of `Consensus` and the final
`cnsBuf.push("")`; `queue` holds the groups the later `trgBuf.pop` calls
return. -/
def Consensus.whileLoop {G : Type} (popts : ProgramOpts) (tk : AlnToolkit G) :
    List TargetData → Locals → WorkerRun
  | queue, st =>
    if st.td.alns.length > 0 then
      match queue with
      | [] =>
        { locals := (Consensus.body popts tk st).1
          events := (Consensus.body popts tk st).2
          status := .blockedInPop }
      | td :: queue =>
        WorkerRun.after ((Consensus.body popts tk st).2 ++ [Event.pop td])
          (Consensus.whileLoop popts tk queue { (Consensus.body popts tk st).1 with td := td })
    else
      { locals := st, events := [Event.push ""], status := .returned }

/-- The function `Consensus` of the source, run against the groups `queue`
that its successive `trgBuf.pop` calls return. `fake_well_counter` is not
initialised by the source: `garbage` is the value it happens to hold.
Logging is left out. -/
def Consensus {G : Type} (popts : ProgramOpts) (tk : AlnToolkit G) (garbage : Int)
    (queue : List TargetData) : WorkerRun :=
  match queue with
  | [] =>
    { locals := { fake_well_counter := garbage, td := sentinel, seqs := [] }
      events := []
      status := .blockedInPop }
  | td :: queue =>
    WorkerRun.after [Event.pop td]
      (Consensus.whileLoop popts tk queue { fake_well_counter := garbage, td := td, seqs := [] })

/-- The groups popped, in order. -/
def poppedGroups : List Event → List TargetData
  | [] => []
  | .pop td :: evs => td :: poppedGroups evs
  | _ :: evs => poppedGroups evs

/-- The records pushed to `cnsBuf`, in order. -/
def pushedRecords : List Event → List String
  | [] => []
  | .push cns :: evs => cns :: pushedRecords evs
  | _ :: evs => pushedRecords evs

/-- The alignments passed to `addAln`, in order. -/
def addedAlns : List Event → List Alignment
  | [] => []
  | .addAln aln :: evs => aln :: addedAlns evs
  | _ :: evs => addedAlns evs

/-- The text of a record spelled out piece by piece. -/
def fastaText (id : String) (counter rangeStart rangeEnd : Int) (sequence : String) : String :=
  ">" ++ id ++ "/" ++ toString counter ++ "/" ++ toString rangeStart ++ "_" ++
    toString rangeEnd ++ "\n" ++ sequence ++ "\n"

/-- The first alignment, in group order, whose aligned query string has at
least `minLen` characters: the first one passed on to the graph. -/
def firstSurviving (popts : ProgramOpts) (alns : AlnVec) : Option Alignment :=
  alns.find? (fun a => decide (popts.minLen ≤ a.qstr.length))

/-- The header id and the result of each record one pass through the loop
body pushes for the group `td`, in push order. -/
def groupFields {G : Type} (popts : ProgramOpts) (tk : AlnToolkit G) (td : TargetData) :
    List (String × CnsResult) :=
  if td.alns.length < popts.minCov then []
  else
    (tk.consensus (Consensus.graph popts tk td) popts.minCov popts.minLen).map
      (fun result => (frontId td.alns, result))

/-- The header id and the result of each record a worker pushes when the
groups it pops are `queue`, in push order: those of the groups before the
first sentinel. -/
def runFields {G : Type} (popts : ProgramOpts) (tk : AlnToolkit G) :
    List TargetData → List (String × CnsResult)
  | [] => []
  | td :: queue =>
    if td.alns.length > 0 then groupFields popts tk td ++ runFields popts tk queue else []

/-- The record with header id and result `f` and counter value `counter`. -/
def recordOf (counter : Int) (f : String × CnsResult) : String :=
  fastaText f.1 counter f.2.range0 f.2.range1 f.2.seq

/-- A small executable stand-in for the external toolkit, used to run the
worker on concrete inputs: normalization is the identity, trimming drops
`n` characters at both ends of the aligned strings, the graph is the
template with the alignments added, and `consensus` returns one window per
added alignment of at least `minLen` characters, provided at least `minCov`
alignments were added. -/
def demoToolkit : AlnToolkit (String × List Alignment) where
  normalizeGaps := fun a => a
  trimAln := fun a n =>
    { a with qstr := (a.qstr.drop n).dropRight n, tstr := (a.tstr.drop n).dropRight n }
  newGraph := fun targSeq => (targSeq, [])
  addAln := fun ag a => (ag.1, ag.2 ++ [a])
  mergeNodes := fun ag => ag
  consensus := fun ag minCov minLen =>
    if minCov ≤ ag.2.length then
      (ag.2.filter (fun a => decide (minLen ≤ a.qstr.length))).map
        (fun a => { range0 := a.tstart, range1 := a.tend, seq := a.qstr })
    else []

/-! ## The pipeline of `main` (lines 211-230)

`main` creates `trgBuf` with capacity 20 and `cnsBuf` with capacity 10 and
runs `Writer`, `popts.threads` copies of `Consensus` and `Reader` as
threads. The threads share nothing but the two buffers, so an interleaving
of the threads is a sequence of buffer operations; everything a thread
does between two buffer operations is folded into the operation before
it, and the calls to the provider and to the alignment graph are taken to
return. `pipeline_refines_threads` shows that the threads below are the
functions `Reader`, `Consensus` and `Writer` above, run on what the
buffers hand them. -/

/-- Capacity of `trgBuf`, from `TrgBuf trgBuf(20);`. -/
def trgBufCapacity : Nat := 20

/-- Capacity of `cnsBuf`, from `CnsBuf cnsBuf(10);`. -/
def cnsBufCapacity : Nat := 10

/-- The `Reader` thread: the pushes it still has to make, in order, and
those it has made. -/
structure ReaderTask where
  toPush : List TargetData
  pushed : List TargetData

/-- A `Consensus` thread: its local variables, the records the current pass
still has to push, whether the loop guard has failed (the group last
popped had no alignment), and the buffer operations made so far. -/
structure WorkerTask where
  locals : Locals
  toPush : List String
  sawSentinel : Bool
  events : List Event

/-- The `Writer` thread: its counter, the text written, the records popped
and whether it has left its loop. -/
structure WriterTask where
  sentinelCount : Int
  cout : String
  popped : List String
  returned : Bool

/-- The threads of `main` and the two buffers, oldest item first. -/
structure Pipeline where
  reader : ReaderTask
  trgBuf : List TargetData
  workers : List WorkerTask
  cnsBuf : List String
  writer : WriterTask

/-- A worker after `trgBuf.pop(&td)` returned `td`: the loop guard is
evaluated and, for a group with alignments, the loop body computes the
records, which are then still to push; for a sentinel the empty record is
still to push. -/
def WorkerTask.afterPop {G : Type} (popts : ProgramOpts) (tk : AlnToolkit G) (w : WorkerTask)
    (td : TargetData) : WorkerTask :=
  if td.alns.length > 0 then
    { locals := (Consensus.body popts tk { w.locals with td := td }).1
      toPush := pushedRecords (Consensus.body popts tk { w.locals with td := td }).2
      sawSentinel := false
      events := w.events ++ [Event.pop td] }
  else
    { locals := { w.locals with td := td }
      toPush := [""]
      sawSentinel := true
      events := w.events ++ [Event.pop td] }

/-- A worker after the push of the record `r`, `rest` being left to push. -/
def WorkerTask.afterPush (w : WorkerTask) (r : String) (rest : List String) : WorkerTask :=
  { w with toPush := rest, events := w.events ++ [Event.push r] }

/-- The writer after `cnsBuf.pop(&cns)` returned `cns`: the record is
written and the break test evaluated. -/
def WriterTask.afterPop (popts : ProgramOpts) (wr : WriterTask) (cns : String) : WriterTask :=
  { sentinelCount := (Writer.breakTest popts cns wr.sentinelCount).2
    cout := wr.cout ++ cns
    popped := wr.popped ++ [cns]
    returned := (Writer.breakTest popts cns wr.sentinelCount).1 }

/-- One buffer operation of one thread. Modelled from the spec for the
buffers (`BoundedBuffer.hpp` is missing): `push` waits while the buffer
holds as many items as its capacity and appends, `pop` waits while the
buffer is empty and removes the oldest item. -/
inductive Step {G : Type} (popts : ProgramOpts) (tk : AlnToolkit G) : Pipeline → Pipeline → Prop
  | readerPush (s : Pipeline) (td : TargetData) (rest : List TargetData) :
      s.reader.toPush = td :: rest → s.trgBuf.length < trgBufCapacity →
      Step popts tk s
        { s with
          reader := { toPush := rest, pushed := s.reader.pushed ++ [td] }
          trgBuf := s.trgBuf ++ [td] }
  | workerPop (s : Pipeline) (before : List WorkerTask) (w : WorkerTask)
      (after : List WorkerTask) (td : TargetData) (rest : List TargetData) :
      s.workers = before ++ w :: after → w.toPush = [] → w.sawSentinel = false →
      s.trgBuf = td :: rest →
      Step popts tk s
        { s with
          trgBuf := rest
          workers := before ++ w.afterPop popts tk td :: after }
  | workerPush (s : Pipeline) (before : List WorkerTask) (w : WorkerTask)
      (after : List WorkerTask) (r : String) (rest : List String) :
      s.workers = before ++ w :: after → w.toPush = r :: rest →
      s.cnsBuf.length < cnsBufCapacity →
      Step popts tk s
        { s with
          cnsBuf := s.cnsBuf ++ [r]
          workers := before ++ w.afterPush r rest :: after }
  | writerPop (s : Pipeline) (cns : String) (rest : List String) :
      s.writer.returned = false → s.cnsBuf = cns :: rest →
      Step popts tk s
        { s with
          cnsBuf := rest
          writer := s.writer.afterPop popts cns }

/-- An interleaving of `n` buffer operations leading from one state of the
pipeline to another. -/
inductive Run {G : Type} (popts : ProgramOpts) (tk : AlnToolkit G) :
    Nat → Pipeline → Pipeline → Prop
  | start (s : Pipeline) : Run popts tk 0 s s
  | next (n : Nat) (s t u : Pipeline) :
      Run popts tk n s t → Step popts tk t u → Run popts tk (n + 1) s u

/-- No thread can make a buffer operation: every thread has ended or is
blocked for good. -/
def Stuck {G : Type} (popts : ProgramOpts) (tk : AlnToolkit G) (s : Pipeline) : Prop :=
  ∀ t, ¬ Step popts tk s t

/-- The state in which `main` starts the threads: empty buffers, a reader
that has the pushes of `Reader` before it (the provider answers `calls`,
without failing), one worker per element of `garbage`, the values their
uninitialised counters hold, and a writer that has popped nothing. -/
def Pipeline.init (popts : ProgramOpts) (calls : List NextTarget) (garbage : List Int) :
    Pipeline :=
  { reader := { toPush := (Reader popts calls).pushed, pushed := [] }
    trgBuf := []
    workers := garbage.map (fun g =>
      { locals := { fake_well_counter := g, td := sentinel, seqs := [] }
        toPush := []
        sawSentinel := false
        events := [] })
    cnsBuf := []
    writer := { sentinelCount := 0, cout := "", popped := [], returned := false } }

/-- The buffer operations among the operations of a worker. -/
def bufferOps : List Event → List Event
  | [] => []
  | .pop td :: evs => Event.pop td :: bufferOps evs
  | .push cns :: evs => Event.push cns :: bufferOps evs
  | _ :: evs => bufferOps evs

/-- The run of `Writer` that corresponds to a writer thread of the
pipeline. -/
def WriterTask.asRun (wr : WriterTask) : WriterRun :=
  { popped := wr.popped
    cout := wr.cout
    sentinelCount := wr.sentinelCount
    status := if wr.returned then .returned else .blockedInPop }

/-- The worker thread `w` of the pipeline is at the point the function
`Consensus`, started with the counter value `garbage`, reaches on the groups
the thread has popped: same local variables, same way of ending, and the
buffer operations of the function are those the thread has made followed
by the pushes it still has to make. -/
def WorkerRefines {G : Type} (popts : ProgramOpts) (tk : AlnToolkit G) (garbage : Int)
    (w : WorkerTask) : Prop :=
  (Consensus popts tk garbage (poppedGroups w.events)).locals = w.locals ∧
    (Consensus popts tk garbage (poppedGroups w.events)).status
      = (if w.sawSentinel then .returned else .blockedInPop) ∧
    bufferOps (Consensus popts tk garbage (poppedGroups w.events)).events
      = w.events ++ w.toPush.map Event.push

/-- Number of records a worker pushes after popping the group `td`. -/
def recordsOf {G : Type} (popts : ProgramOpts) (tk : AlnToolkit G) (td : TargetData) : Nat :=
  if td.alns.length > 0 then
    if td.alns.length < popts.minCov then 0
    else (tk.consensus (Consensus.graph popts tk td) popts.minCov popts.minLen).length
  else 1

/-- Number of buffer operations still to come: two for every group the
reader has to push, one for every group in `trgBuf`, and for every record
two before its push and one while it is in `cnsBuf`. -/
def Pipeline.opsLeft {G : Type} (popts : ProgramOpts) (tk : AlnToolkit G) (s : Pipeline) : Nat :=
  (s.reader.toPush.map (fun td => 2 + 2 * recordsOf popts tk td)).sum +
    (s.trgBuf.map (fun td => 1 + 2 * recordsOf popts tk td)).sum +
    (s.workers.map (fun w => 2 * w.toPush.length)).sum +
    s.cnsBuf.length

/-- Number of sentinels among groups. -/
def sentinelCountOf (groups : List TargetData) : Nat :=
  groups.countP (fun td => td.alns.isEmpty)

/-- The protocol has run to its end: the reader has nothing left to push
and has pushed exactly `threads` sentinels; there are `threads` workers,
each of which has popped exactly one sentinel, has left its loop, has
pushed exactly one empty record and has nothing left to push; the writer
has left its loop having popped exactly `threads` empty records. -/
def Completed (popts : ProgramOpts) (s : Pipeline) : Prop :=
  s.reader.toPush = [] ∧
    (sentinelCountOf s.reader.pushed : Int) = popts.threads ∧
    (s.workers.length : Int) = popts.threads ∧
    (∀ w ∈ s.workers, w.sawSentinel = true ∧ w.toPush = [] ∧
      sentinelCountOf (poppedGroups w.events) = 1 ∧
      (pushedRecords w.events).count "" = 1) ∧
    s.writer.returned = true ∧
    ((s.writer.popped.count "" : Nat) : Int) = popts.threads

/-- Number of workers whose loop guard has not failed yet. -/
def notSaw (ws : List WorkerTask) : Nat := ws.countP (fun w => !w.sawSentinel)

/-- Number of empty records the workers have pushed. -/
def pushedEmpties (ws : List WorkerTask) : Nat :=
  (ws.map (fun w => (pushedRecords w.events).count "")).sum

/-- What holds of every worker at every moment: it has popped one sentinel
if its loop guard has failed and none otherwise, the empty records it has
pushed or has yet to push are as many, and after the guard failed it has
nothing but the empty record to push. -/
def WorkerOk (w : WorkerTask) : Prop :=
  sentinelCountOf (poppedGroups w.events) = (if w.sawSentinel then 1 else 0) ∧
    (pushedRecords w.events).count "" + w.toPush.count ""
      = (if w.sawSentinel then 1 else 0) ∧
    (w.sawSentinel = true → ∀ r ∈ w.toPush, r = "")

/-- What holds of the pipeline at every moment of every interleaving, for
`n` workers and a provider whose forwarded groups are `fwd`. -/
structure Inv (popts : ProgramOpts) (n : Nat) (fwd : List TargetData) (s : Pipeline) : Prop where
  workers_length : s.workers.length = n
  reader_ghost : s.reader.pushed ++ s.reader.toPush = fwd ++ List.replicate n sentinel
  remaining : ∃ real, s.trgBuf ++ s.reader.toPush
      = real ++ List.replicate (notSaw s.workers) sentinel ∧
    (∀ g ∈ real, g.alns ≠ []) ∧ (real = [] ∨ notSaw s.workers = n)
  worker_ok : ∀ w ∈ s.workers, WorkerOk w
  conservation : s.cnsBuf.count "" + s.writer.popped.count "" = pushedEmpties s.workers
  writer_count : s.writer.sentinelCount = ((s.writer.popped.count "" : Nat) : Int)
  writer_running : s.writer.returned = false → s.writer.popped.count "" < n
  writer_done : s.writer.returned = true → s.writer.popped.count "" = n

/-- Nothing but sentinels and empty records is anywhere in the pipeline, and
nothing has been written. -/
def Quiet (s : Pipeline) : Prop :=
  (∀ td ∈ s.trgBuf ++ s.reader.toPush, td.alns = []) ∧
    (∀ w ∈ s.workers, ∀ r ∈ w.toPush, r = "") ∧
    (∀ r ∈ s.cnsBuf, r = "") ∧
    (∀ r ∈ s.writer.popped, r = "") ∧
    s.writer.cout = ""

/-! ## Reader: lemmas -/

theorem Reader_pushSentinels_eq (n : Nat) (pushed : List TargetData) :
    Reader.pushSentinels n pushed = pushed ++ List.replicate n sentinel := by
  induction n generalizing pushed with
  | zero => simp [Reader.pushSentinels]
  | succ n ih =>
    simp [Reader.pushSentinels, ih, List.replicate_succ]

theorem Reader_doWhile_more (groups : List TargetData) (rest : List NextTarget)
    (pushed : List TargetData) :
    Reader.doWhile (groups.map yieldMore ++ rest) pushed
      = Reader.doWhile rest (pushed ++ forwarded groups) := by
  induction groups generalizing pushed with
  | nil => simp [forwarded]
  | cons g gs ih =>
    obtain ⟨targSeq, alns⟩ := g
    cases alns with
    | nil => simp [yieldMore, Reader.doWhile, forwarded, ih]
    | cons a as => simp [yieldMore, Reader.doWhile, forwarded, ih]

theorem forwarded_nonempty (groups : List TargetData) :
    ∀ g ∈ forwarded groups, g.alns ≠ [] := by
  intro g hg
  simp [forwarded] at hg
  exact hg.2

theorem Reader_exhausted (popts : ProgramOpts) (groups : List TargetData) (last : TargetData) :
    Reader popts (groups.map yieldMore ++ [yieldLast last])
      = { pushed := forwarded (groups ++ [last]) ++ List.replicate popts.threads.toNat sentinel
          cerr := ""
          status := .returned } := by
  unfold Reader
  rw [Reader_doWhile_more]
  obtain ⟨targSeq, alns⟩ := last
  cases alns with
  | nil => simp [yieldLast, Reader.doWhile, forwarded, Reader_pushSentinels_eq]
  | cons a as => simp [yieldLast, Reader.doWhile, forwarded, Reader_pushSentinels_eq]

/-- C1. Normal exhaustion: when the provider yields `groups` with "more
remain" and then `last` with "no more", and `threads >= 0`, `Reader` returns
after pushing exactly the yielded groups that have at least one alignment,
in provider order and including the last one, followed by exactly `threads`
sentinels; no group pushed before the sentinels has zero alignments. -/
theorem Reader_normal_exhaustion (popts : ProgramOpts) (groups : List TargetData)
    (last : TargetData) (hthreads : 0 ≤ popts.threads) :
    ∃ n : Nat, (n : Int) = popts.threads ∧
      Reader popts (groups.map yieldMore ++ [yieldLast last])
        = { pushed := forwarded (groups ++ [last]) ++ List.replicate n sentinel
            cerr := ""
            status := .returned } ∧
      (∀ g ∈ forwarded (groups ++ [last]), g.alns ≠ []) ∧
      (∀ s ∈ List.replicate n sentinel, s.alns = []) := by
  refine ⟨popts.threads.toNat, Int.toNat_of_nonneg hthreads, Reader_exhausted popts groups last,
    forwarded_nonempty _, ?_⟩
  · intro s hs
    rw [List.eq_of_mem_replicate hs]
    rfl

/-- Witness of C1: two workers, a provider yielding an empty group and then a
last group with one alignment. -/
theorem Reader_normal_exhaustion_witness :
    ∃ n : Nat, (n : Int) = 2 ∧
      Reader ⟨2, 6, 500, 10⟩
          ([⟨"ACGT", []⟩].map yieldMore ++ [yieldLast ⟨"GG", [⟨"t", "GG", "GG", 0, 2⟩]⟩])
        = { pushed := forwarded ([⟨"ACGT", []⟩] ++ [⟨"GG", [⟨"t", "GG", "GG", 0, 2⟩]⟩])
                        ++ List.replicate n sentinel
            cerr := ""
            status := .returned } ∧
      (∀ g ∈ forwarded ([⟨"ACGT", []⟩] ++ [⟨"GG", [⟨"t", "GG", "GG", 0, 2⟩]⟩]), g.alns ≠ []) ∧
      (∀ s ∈ List.replicate n sentinel, s.alns = []) :=
  Reader_normal_exhaustion ⟨2, 6, 500, 10⟩ [⟨"ACGT", []⟩] ⟨"GG", [⟨"t", "GG", "GG", 0, 2⟩]⟩
    (by decide)

/-- C7. Provider failure: when the provider yields `groups` (each with "more
remain") and its next call throws the I/O exception, `Reader` ends the
process with exit status 1 at that call, whatever later calls would return;
it has pushed exactly the yielded groups that have at least one alignment,
and none of the pushed items is a sentinel. -/
theorem Reader_provider_failure (popts : ProgramOpts) (groups : List TargetData)
    (what : String) (later : List NextTarget) :
    Reader popts (groups.map yieldMore ++ NextTarget.ioException what :: later)
        = { pushed := forwarded groups, cerr := what, status := .exited 1 } ∧
      (∀ g ∈ (Reader popts
          (groups.map yieldMore ++ NextTarget.ioException what :: later)).pushed,
        g.alns ≠ []) := by
  have h : Reader popts (groups.map yieldMore ++ NextTarget.ioException what :: later)
      = { pushed := forwarded groups, cerr := what, status := .exited 1 } := by
    unfold Reader
    rw [Reader_doWhile_more]
    simp [Reader.doWhile]
  refine ⟨h, ?_⟩
  rw [h]
  exact forwarded_nonempty groups


/-! ## Writer: lemmas -/

theorem wrapInt32_of_inRange (x : Int) (hlo : -2147483648 ≤ x) (hhi : x ≤ 2147483647) :
    wrapInt32 x = x := by
  unfold wrapInt32
  omega

theorem Writer_breakTest_record (popts : ProgramOpts) (cns : String) (sentinelCount : Int)
    (h : cns ≠ "") : Writer.breakTest popts cns sentinelCount = (false, sentinelCount) := by
  simp [Writer.breakTest, h]

theorem Writer_breakTest_sentinel (popts : ProgramOpts) (sentinelCount : Int)
    (hlo : 0 ≤ sentinelCount) (hhi : sentinelCount < 2147483647) :
    Writer.breakTest popts "" sentinelCount
      = (decide (sentinelCount + 1 = popts.threads), sentinelCount + 1) := by
  simp [Writer.breakTest, increment,
    wrapInt32_of_inRange (sentinelCount + 1) (by omega) (by omega)]

theorem Writer_whileLoop_last (popts : ProgramOpts) (post : List String) (sentinelCount : Int)
    (popped : List String) (cout : String) (hlo : 0 ≤ sentinelCount)
    (hlast : sentinelCount + 1 = popts.threads) (hint : popts.threads ≤ 2147483647) :
    Writer.whileLoop popts post "" sentinelCount popped cout
      = { popped := popped, cout := cout, sentinelCount := popts.threads,
          status := .returned } := by
  unfold Writer.whileLoop
  rw [Writer_breakTest_sentinel popts sentinelCount hlo (by omega)]
  simp [hlast]

theorem Writer_whileLoop_spec (popts : ProgramOpts) (post : List String)
    (hint : popts.threads ≤ 2147483647) (mid : List String) :
    ∀ (cns : String) (sentinelCount : Int) (popped : List String) (cout : String),
      0 ≤ sentinelCount →
      sentinelCount + ((cns :: mid).count "" : Nat) + 1 = popts.threads →
      Writer.whileLoop popts (mid ++ "" :: post) cns sentinelCount popped cout
        = { popped := popped ++ mid ++ [""]
            cout := cout ++ concatRecords ((cns :: mid).filter (fun r => decide (r ≠ "")))
            sentinelCount := popts.threads
            status := .returned } := by
  induction mid with
  | nil =>
    intro cns sentinelCount popped cout hlo hcount
    by_cases hc : cns = ""
    · subst hc
      simp at hcount
      unfold Writer.whileLoop
      rw [Writer_breakTest_sentinel popts sentinelCount hlo (by omega)]
      have hne : ¬ (sentinelCount + 1 = popts.threads) := by omega
      simp [hne]
      rw [Writer_whileLoop_last popts post (sentinelCount + 1) _ _ (by omega) (by omega) hint]
      simp [concatRecords]
    · have hc' : ¬ ("" = cns) := fun h => hc h.symm
      simp [List.count_cons, hc'] at hcount
      unfold Writer.whileLoop
      rw [Writer_breakTest_record popts cns sentinelCount hc]
      simp
      rw [Writer_whileLoop_last popts post sentinelCount _ _ hlo hcount hint]
      simp [concatRecords, hc]
  | cons m mid ih =>
    intro cns sentinelCount popped cout hlo hcount
    by_cases hc : cns = ""
    · subst hc
      rw [List.count_cons_self] at hcount
      push_cast at hcount
      rw [List.cons_append]
      unfold Writer.whileLoop
      rw [Writer_breakTest_sentinel popts sentinelCount hlo (by omega)]
      have hne : ¬ (sentinelCount + 1 = popts.threads) := by omega
      simp [hne]
      rw [ih m (sentinelCount + 1) _ _ (by omega) (by omega)]
      simp [concatRecords]
    · have hc' : ¬ ("" = cns) := fun h => hc h.symm
      rw [List.count_cons_of_ne hc'] at hcount
      rw [List.cons_append]
      unfold Writer.whileLoop
      rw [Writer_breakTest_record popts cns sentinelCount hc]
      simp
      rw [ih m sentinelCount _ _ hlo hcount]
      simp [concatRecords, hc, String.append_assoc]

theorem Writer_split (popts : ProgramOpts) (pre post : List String)
    (hint : popts.threads ≤ 2147483647)
    (hcount : ((pre.count "" : Nat) : Int) + 1 = popts.threads) :
    Writer popts (pre ++ "" :: post)
      = { popped := pre ++ [""]
          cout := concatRecords (pre.filter (fun r => decide (r ≠ "")))
          sentinelCount := popts.threads
          status := .returned } := by
  cases pre with
  | nil =>
    simp at hcount
    simp [Writer, concatRecords]
    rw [Writer_whileLoop_last popts post 0 _ _ (by omega) (by omega) hint]
  | cons c mid =>
    simp only [Writer, List.cons_append]
    rw [Writer_whileLoop_spec popts post hint mid c 0 [c] "" (by omega) (by omega)]
    simp

theorem exists_sentinel_split (stream : List String) :
    ∀ k : Nat, 1 ≤ k → k ≤ stream.count "" →
      ∃ pre post, stream = pre ++ "" :: post ∧ pre.count "" + 1 = k := by
  induction stream with
  | nil => intro k h1 hk; simp at hk; omega
  | cons r rs ih =>
    intro k h1 hk
    by_cases hr : r = ""
    · subst hr
      rw [List.count_cons_self] at hk
      by_cases hk1 : k = 1
      · exact ⟨[], rs, by simp, by simp [hk1]⟩
      · obtain ⟨pre, post, hsplit, hc⟩ := ih (k - 1) (by omega) (by omega)
        refine ⟨"" :: pre, post, by simp [hsplit], ?_⟩
        rw [List.count_cons_self]
        omega
    · have hr' : ¬ ("" = r) := fun h => hr h.symm
      rw [List.count_cons_of_ne hr'] at hk
      obtain ⟨pre, post, hsplit, hc⟩ := ih k h1 hk
      refine ⟨r :: pre, post, by simp [hsplit], ?_⟩
      rw [List.count_cons_of_ne hr']
      exact hc

/-- C2. For `threads >= 1` (an `int`, so at most 2147483647) and every
stream of records holding at least `threads` empty strings, `Writer` returns
right after popping the `threads`-th empty string: what it has popped is
the stream up to and including that string, nothing after it, and the text
written to `std::cout` is the concatenation, in pop order, of the non-empty
records before that string, each verbatim; `sentinelCount` has reached
`threads`. -/
theorem Writer_stops_at_last_sentinel (popts : ProgramOpts) (stream : List String)
    (hthreads : 1 ≤ popts.threads) (hint : popts.threads ≤ 2147483647)
    (hstream : popts.threads ≤ (stream.count "" : Nat)) :
    ∃ pre post, stream = pre ++ "" :: post ∧
      ((pre.count "" : Nat) : Int) + 1 = popts.threads ∧
      Writer popts stream
        = { popped := pre ++ [""]
            cout := concatRecords (pre.filter (fun r => decide (r ≠ "")))
            sentinelCount := popts.threads
            status := .returned } := by
  obtain ⟨pre, post, hsplit, hc⟩ :=
    exists_sentinel_split stream popts.threads.toNat (by omega) (by omega)
  have hcount : ((pre.count "" : Nat) : Int) + 1 = popts.threads := by omega
  exact ⟨pre, post, hsplit, hcount, by rw [hsplit]; exact Writer_split popts pre post hint hcount⟩

/-- Witness of C2: two workers and the stream `a`, empty, `b`, empty, `c`. -/
theorem Writer_stops_at_last_sentinel_witness :
    ∃ pre post, ["a", "", "b", "", "c"] = pre ++ "" :: post ∧
      ((pre.count "" : Nat) : Int) + 1 = (2 : Int) ∧
      Writer ⟨2, 6, 500, 10⟩ ["a", "", "b", "", "c"]
        = { popped := pre ++ [""]
            cout := concatRecords (pre.filter (fun r => decide (r ≠ "")))
            sentinelCount := 2
            status := .returned } :=
  Writer_stops_at_last_sentinel ⟨2, 6, 500, 10⟩ ["a", "", "b", "", "c"]
    (by decide) (by decide) (by decide)

/-! ## Consensus worker: lemmas -/

theorem Consensus_fasta_str (alns : AlnVec) (fake_well_counter : Int) (result : CnsResult) :
    (Consensus.fasta alns fake_well_counter result).str
      = fastaText (frontId alns) fake_well_counter result.range0 result.range1 result.seq := by
  apply String.ext
  simp [Consensus.fasta, BoostFormat.str, BoostFormat.feed, BoostFormat.new, formatGo,
    FmtArg.render, String.singleton, fastaText]

theorem fastaText_ne_empty (id : String) (counter rangeStart rangeEnd : Int)
    (sequence : String) : fastaText id counter rangeStart rangeEnd sequence ≠ "" := by
  intro h
  have hdata := congrArg String.data h
  simp [fastaText] at hdata

theorem poppedGroups_append (xs ys : List Event) :
    poppedGroups (xs ++ ys) = poppedGroups xs ++ poppedGroups ys := by
  induction xs with
  | nil => rfl
  | cons e xs ih => cases e <;> simp [poppedGroups, ih]

theorem pushedRecords_append (xs ys : List Event) :
    pushedRecords (xs ++ ys) = pushedRecords xs ++ pushedRecords ys := by
  induction xs with
  | nil => rfl
  | cons e xs ih => cases e <;> simp [pushedRecords, ih]

theorem addedAlns_append (xs ys : List Event) :
    addedAlns (xs ++ ys) = addedAlns xs ++ addedAlns ys := by
  induction xs with
  | nil => rfl
  | cons e xs ih => cases e <;> simp [addedAlns, ih]

/-- The alignments the loop of lines 78-85 hands to `addAln`. -/
theorem Consensus_addAlns_events {G : Type} (popts : ProgramOpts) (tk : AlnToolkit G)
    (alns : AlnVec) (ag : G) :
    (Consensus.addAlns popts tk alns ag).2
      = ((alns.filter (fun a => decide (popts.minLen ≤ a.qstr.length))).map
          (fun a => Event.addAln (tk.trimAln (tk.normalizeGaps a) popts.trim))) := by
  induction alns generalizing ag with
  | nil => rfl
  | cons it rest ih =>
    by_cases h : it.qstr.length < popts.minLen
    · have h' : ¬ popts.minLen ≤ it.qstr.length := by omega
      simp [Consensus.addAlns, h, h', ih]
    · have h' : popts.minLen ≤ it.qstr.length := by omega
      simp [Consensus.addAlns, h, h', ih]

/-- The graph the loop of lines 78-85 leaves. -/
theorem Consensus_addAlns_graph {G : Type} (popts : ProgramOpts) (tk : AlnToolkit G)
    (alns : AlnVec) (ag : G) :
    (Consensus.addAlns popts tk alns ag).1
      = ((alns.filter (fun a => decide (popts.minLen ≤ a.qstr.length))).map
          (fun a => tk.trimAln (tk.normalizeGaps a) popts.trim)).foldl tk.addAln ag := by
  induction alns generalizing ag with
  | nil => rfl
  | cons it rest ih =>
    by_cases h : it.qstr.length < popts.minLen
    · have h' : ¬ popts.minLen ≤ it.qstr.length := by omega
      simp [Consensus.addAlns, h, h', ih]
    · have h' : popts.minLen ≤ it.qstr.length := by omega
      simp [Consensus.addAlns, h, h', ih]

theorem Consensus_addAlns_no_pop_push {G : Type} (popts : ProgramOpts) (tk : AlnToolkit G)
    (alns : AlnVec) (ag : G) :
    poppedGroups (Consensus.addAlns popts tk alns ag).2 = [] ∧
      pushedRecords (Consensus.addAlns popts tk alns ag).2 = [] := by
  rw [Consensus_addAlns_events]
  generalize alns.filter (fun a => decide (popts.minLen ≤ a.qstr.length)) = l
  induction l with
  | nil => exact ⟨rfl, rfl⟩
  | cons a l ih => simpa [poppedGroups, pushedRecords] using ih

theorem addedAlns_map_addAln (f : Alignment → Alignment) (l : List Alignment) :
    addedAlns (l.map (fun a => Event.addAln (f a))) = l.map f := by
  induction l with
  | nil => rfl
  | cons a l ih => simp [addedAlns, ih]

/-- The records the loop of lines 90-100 pushes: one per result, in order,
with the counter values `c`, `++c`, ... -/
theorem Consensus_pushSeqs_events (alns : AlnVec) (seqs : List CnsResult) (c : Int) :
    (Consensus.pushSeqs alns seqs c).2
      = List.zipWith
          (fun counter result => Event.push
            (fastaText (frontId alns) counter result.range0 result.range1 result.seq))
          (List.iterate increment c seqs.length) seqs := by
  induction seqs generalizing c with
  | nil => rfl
  | cons r rs ih =>
    simp [Consensus.pushSeqs, Consensus_fasta_str, ih, List.iterate]

theorem Consensus_pushSeqs_counter (alns : AlnVec) (seqs : List CnsResult) (c : Int) :
    (Consensus.pushSeqs alns seqs c).1 = increment^[seqs.length] c := by
  induction seqs generalizing c with
  | nil => rfl
  | cons r rs ih => simp [Consensus.pushSeqs, ih]

theorem pushedRecords_zipWith_push (f : Int → CnsResult → String) (cs : List Int)
    (rs : List CnsResult) :
    pushedRecords (List.zipWith (fun c r => Event.push (f c r)) cs rs) = List.zipWith f cs rs := by
  induction cs generalizing rs with
  | nil => simp [pushedRecords]
  | cons c cs ih =>
    cases rs with
    | nil => simp [pushedRecords]
    | cons r rs => simp [pushedRecords, ih]

theorem poppedGroups_zipWith_push (f : Int → CnsResult → String) (cs : List Int)
    (rs : List CnsResult) :
    poppedGroups (List.zipWith (fun c r => Event.push (f c r)) cs rs) = [] := by
  induction cs generalizing rs with
  | nil => simp [poppedGroups]
  | cons c cs ih =>
    cases rs with
    | nil => simp [poppedGroups]
    | cons r rs => simp [poppedGroups, ih]

theorem addedAlns_zipWith_push (f : Int → CnsResult → String) (cs : List Int)
    (rs : List CnsResult) :
    addedAlns (List.zipWith (fun c r => Event.push (f c r)) cs rs) = [] := by
  induction cs generalizing rs with
  | nil => simp [addedAlns]
  | cons c cs ih =>
    cases rs with
    | nil => simp [addedAlns]
    | cons r rs => simp [addedAlns, ih]

/-- The records one pass through the loop body pushes for a group that has
at least `minCov` alignments. -/
theorem Consensus_body_pushed {G : Type} (popts : ProgramOpts) (tk : AlnToolkit G) (st : Locals)
    (hcov : popts.minCov ≤ st.td.alns.length) :
    pushedRecords (Consensus.body popts tk st).2
      = List.zipWith
          (fun counter result =>
            fastaText (frontId st.td.alns) counter result.range0 result.range1 result.seq)
          (List.iterate increment st.fake_well_counter
            (tk.consensus (Consensus.graph popts tk st.td) popts.minCov popts.minLen).length)
          (tk.consensus (Consensus.graph popts tk st.td) popts.minCov popts.minLen) := by
  have h : ¬ st.td.alns.length < popts.minCov := by omega
  simp only [Consensus.body, h, if_false]
  simp only [pushedRecords, pushedRecords_append, (Consensus_addAlns_no_pop_push _ _ _ _).2,
    List.nil_append, Consensus_pushSeqs_events]
  exact pushedRecords_zipWith_push _ _ _

theorem Consensus_body_counter {G : Type} (popts : ProgramOpts) (tk : AlnToolkit G)
    (st : Locals) :
    (Consensus.body popts tk st).1.fake_well_counter
      = increment^[(pushedRecords (Consensus.body popts tk st).2).length] st.fake_well_counter := by
  by_cases h : st.td.alns.length < popts.minCov
  · simp [Consensus.body, h, pushedRecords]
  · rw [Consensus_body_pushed popts tk st (by omega)]
    simp [Consensus.body, h, Consensus_pushSeqs_counter]

theorem mem_zipWith_exists {α β γ : Type} (f : α → β → γ) (cs : List α) (rs : List β) (x : γ)
    (hx : x ∈ List.zipWith f cs rs) : ∃ c r, r ∈ rs ∧ x = f c r := by
  induction cs generalizing rs with
  | nil => simp at hx
  | cons c cs ih =>
    cases rs with
    | nil => simp at hx
    | cons r rs =>
      simp only [List.zipWith_cons_cons, List.mem_cons] at hx
      rcases hx with hx | hx
      · exact ⟨c, r, by simp, hx⟩
      · obtain ⟨c', r', hr', hx'⟩ := ih rs hx
        exact ⟨c', r', by simp [hr'], hx'⟩

theorem Consensus_body_pops_nothing {G : Type} (popts : ProgramOpts) (tk : AlnToolkit G)
    (st : Locals) : poppedGroups (Consensus.body popts tk st).2 = [] := by
  by_cases h : st.td.alns.length < popts.minCov
  · simp [Consensus.body, h, poppedGroups]
  · simp only [Consensus.body, h, if_false]
    simp only [poppedGroups, poppedGroups_append, (Consensus_addAlns_no_pop_push _ _ _ _).1,
      List.nil_append, Consensus_pushSeqs_events]
    exact poppedGroups_zipWith_push _ _ _

theorem Consensus_body_pushes_no_empty {G : Type} (popts : ProgramOpts) (tk : AlnToolkit G)
    (st : Locals) : "" ∉ pushedRecords (Consensus.body popts tk st).2 := by
  by_cases h : st.td.alns.length < popts.minCov
  · simp [Consensus.body, h, pushedRecords]
  · rw [Consensus_body_pushed popts tk st (by omega)]
    intro hmem
    obtain ⟨c, r, _, hx⟩ := mem_zipWith_exists _ _ _ _ hmem
    exact fastaText_ne_empty _ _ _ _ _ hx.symm

theorem Consensus_whileLoop_sentinel {G : Type} (popts : ProgramOpts) (tk : AlnToolkit G)
    (queue : List TargetData) (st : Locals) (hs : st.td.alns = []) :
    Consensus.whileLoop popts tk queue st
      = { locals := st, events := [Event.push ""], status := .returned } := by
  unfold Consensus.whileLoop
  simp [hs]

theorem Consensus_whileLoop_next {G : Type} (popts : ProgramOpts) (tk : AlnToolkit G)
    (td : TargetData) (queue : List TargetData) (st : Locals) (hne : st.td.alns ≠ []) :
    Consensus.whileLoop popts tk (td :: queue) st
      = WorkerRun.after ((Consensus.body popts tk st).2 ++ [Event.pop td])
          (Consensus.whileLoop popts tk queue
            { (Consensus.body popts tk st).1 with td := td }) := by
  have hpos : 0 < st.td.alns.length := List.length_pos.mpr hne
  rw [Consensus.whileLoop]
  simp [hpos]

theorem Consensus_whileLoop_spec {G : Type} (popts : ProgramOpts) (tk : AlnToolkit G)
    (s : TargetData) (post : List TargetData) (hs : s.alns = []) (mid : List TargetData) :
    ∀ st : Locals, st.td.alns ≠ [] → (∀ g ∈ mid, g.alns ≠ []) →
      (Consensus.whileLoop popts tk (mid ++ s :: post) st).status = .returned ∧
      poppedGroups (Consensus.whileLoop popts tk (mid ++ s :: post) st).events = mid ++ [s] ∧
      ∃ recs, pushedRecords (Consensus.whileLoop popts tk (mid ++ s :: post) st).events
          = recs ++ [""] ∧ "" ∉ recs := by
  induction mid with
  | nil =>
    intro st hne _
    rw [List.nil_append, Consensus_whileLoop_next popts tk s post st hne,
      Consensus_whileLoop_sentinel popts tk post _ hs]
    refine ⟨rfl, ?_, pushedRecords (Consensus.body popts tk st).2, ?_,
      Consensus_body_pushes_no_empty popts tk st⟩
    · simp [WorkerRun.after, poppedGroups_append, Consensus_body_pops_nothing, poppedGroups]
    · simp [WorkerRun.after, pushedRecords_append, pushedRecords]
  | cons m mid ih =>
    intro st hne hmid
    have hm : m.alns ≠ [] := hmid m (by simp)
    obtain ⟨hstatus, hpop, recs, hpush, hrecs⟩ :=
      ih { (Consensus.body popts tk st).1 with td := m } hm
        (fun g hg => hmid g (by simp [hg]))
    rw [List.cons_append, Consensus_whileLoop_next popts tk m _ st hne]
    refine ⟨hstatus, ?_, pushedRecords (Consensus.body popts tk st).2 ++ recs, ?_, ?_⟩
    · simp [WorkerRun.after, poppedGroups_append, Consensus_body_pops_nothing, poppedGroups,
        hpop]
    · simp [WorkerRun.after, pushedRecords_append, pushedRecords, hpush]
    · simp only [List.mem_append, not_or]
      exact ⟨Consensus_body_pushes_no_empty popts tk st, hrecs⟩

/-! ## Consensus worker: properties -/

/-- C3. Termination signal: when the groups a worker pops are `pre`, all
with at least one alignment, and then a sentinel `s`, the worker returns
having popped exactly `pre` and `s`, nothing of what follows; the records
it pushed are some records none of which is the empty string, followed by
one empty string, so it contributes exactly one empty string and that one
is its last push. -/
theorem Consensus_stops_at_first_sentinel {G : Type} (popts : ProgramOpts) (tk : AlnToolkit G)
    (garbage : Int) (pre : List TargetData) (s : TargetData) (post : List TargetData)
    (hpre : ∀ g ∈ pre, g.alns ≠ []) (hs : s.alns = []) :
    (Consensus popts tk garbage (pre ++ s :: post)).status = .returned ∧
      poppedGroups (Consensus popts tk garbage (pre ++ s :: post)).events = pre ++ [s] ∧
      (∃ recs, pushedRecords (Consensus popts tk garbage (pre ++ s :: post)).events
          = recs ++ [""] ∧ "" ∉ recs) ∧
      (pushedRecords (Consensus popts tk garbage (pre ++ s :: post)).events).count "" = 1 := by
  have key : (Consensus popts tk garbage (pre ++ s :: post)).status = .returned ∧
      poppedGroups (Consensus popts tk garbage (pre ++ s :: post)).events = pre ++ [s] ∧
      (∃ recs, pushedRecords (Consensus popts tk garbage (pre ++ s :: post)).events
          = recs ++ [""] ∧ "" ∉ recs) := by
    cases pre with
    | nil =>
      simp only [Consensus, List.nil_append]
      rw [Consensus_whileLoop_sentinel popts tk post _ hs]
      exact ⟨rfl, by simp [WorkerRun.after, poppedGroups],
        [], by simp [WorkerRun.after, pushedRecords], by simp⟩
    | cons g mid =>
      have hg : g.alns ≠ [] := hpre g (by simp)
      obtain ⟨hstatus, hpop, recs, hpush, hrecs⟩ :=
        Consensus_whileLoop_spec popts tk s post hs mid
          { fake_well_counter := garbage, td := g, seqs := [] } hg
          (fun x hx => hpre x (by simp [hx]))
      simp only [Consensus, List.cons_append]
      refine ⟨hstatus, ?_, recs, ?_, hrecs⟩
      · simp [WorkerRun.after, poppedGroups, hpop]
      · simp [WorkerRun.after, pushedRecords, hpush]
  obtain ⟨hstatus, hpop, recs, hpush, hrecs⟩ := key
  refine ⟨hstatus, hpop, ⟨recs, hpush, hrecs⟩, ?_⟩
  rw [hpush, List.count_append, List.count_eq_zero_of_not_mem hrecs]
  simp

/-- Witness of C3: a worker that pops one group, the sentinel, and would find
another group behind it. -/
theorem Consensus_stops_at_first_sentinel_witness :
    (Consensus ⟨1, 1, 2, 0⟩ demoToolkit 0
        ([⟨"ACGT", [⟨"t", "ACGT", "ACGT", 0, 4⟩]⟩] ++ sentinel ::
          [⟨"GG", [⟨"u", "GG", "GG", 0, 2⟩]⟩])).status = .returned ∧
      poppedGroups (Consensus ⟨1, 1, 2, 0⟩ demoToolkit 0
        ([⟨"ACGT", [⟨"t", "ACGT", "ACGT", 0, 4⟩]⟩] ++ sentinel ::
          [⟨"GG", [⟨"u", "GG", "GG", 0, 2⟩]⟩])).events
        = [⟨"ACGT", [⟨"t", "ACGT", "ACGT", 0, 4⟩]⟩] ++ [sentinel] ∧
      (∃ recs, pushedRecords (Consensus ⟨1, 1, 2, 0⟩ demoToolkit 0
        ([⟨"ACGT", [⟨"t", "ACGT", "ACGT", 0, 4⟩]⟩] ++ sentinel ::
          [⟨"GG", [⟨"u", "GG", "GG", 0, 2⟩]⟩])).events = recs ++ [""] ∧ "" ∉ recs) ∧
      (pushedRecords (Consensus ⟨1, 1, 2, 0⟩ demoToolkit 0
        ([⟨"ACGT", [⟨"t", "ACGT", "ACGT", 0, 4⟩]⟩] ++ sentinel ::
          [⟨"GG", [⟨"u", "GG", "GG", 0, 2⟩]⟩])).events).count "" = 1 :=
  Consensus_stops_at_first_sentinel ⟨1, 1, 2, 0⟩ demoToolkit 0
    [⟨"ACGT", [⟨"t", "ACGT", "ACGT", 0, 4⟩]⟩] sentinel [⟨"GG", [⟨"u", "GG", "GG", 0, 2⟩]⟩]
    (by decide) (by decide)

/-- C4. Coverage filter: for a group that is not a sentinel and has fewer
than `minCov` alignments, the pass through the loop body performs no
operation at all (no push, no graph construction, no engine call) and
leaves the local variables as they were; the worker then pops the next
group and continues with it, and it is blocked in that pop, not returned,
when no group follows. -/
theorem Consensus_coverage_filter {G : Type} (popts : ProgramOpts) (tk : AlnToolkit G)
    (st : Locals) (hne : 0 < st.td.alns.length) (hlow : st.td.alns.length < popts.minCov) :
    Consensus.body popts tk st = (st, []) ∧
      Consensus.whileLoop popts tk [] st
        = { locals := st, events := [], status := .blockedInPop } ∧
      ∀ (next : TargetData) (queue : List TargetData),
        Consensus.whileLoop popts tk (next :: queue) st
          = WorkerRun.after [Event.pop next]
              (Consensus.whileLoop popts tk queue { st with td := next }) := by
  have hbody : Consensus.body popts tk st = (st, []) := by simp [Consensus.body, hlow]
  refine ⟨hbody, ?_, ?_⟩
  · rw [Consensus.whileLoop]
    simp [hne, hbody]
  · intro next queue
    rw [Consensus_whileLoop_next popts tk next queue st (List.length_pos.mp hne), hbody]
    simp

/-- Witness of C4: a group of one alignment under `minCov = 2`. -/
theorem Consensus_coverage_filter_witness :
    Consensus.body ⟨1, 2, 2, 0⟩ demoToolkit ⟨5, ⟨"ACGT", [⟨"t", "ACGT", "ACGT", 0, 4⟩]⟩, []⟩
        = (⟨5, ⟨"ACGT", [⟨"t", "ACGT", "ACGT", 0, 4⟩]⟩, []⟩, []) ∧
      Consensus.whileLoop ⟨1, 2, 2, 0⟩ demoToolkit []
          ⟨5, ⟨"ACGT", [⟨"t", "ACGT", "ACGT", 0, 4⟩]⟩, []⟩
        = { locals := ⟨5, ⟨"ACGT", [⟨"t", "ACGT", "ACGT", 0, 4⟩]⟩, []⟩
            events := []
            status := .blockedInPop } ∧
      ∀ (next : TargetData) (queue : List TargetData),
        Consensus.whileLoop ⟨1, 2, 2, 0⟩ demoToolkit (next :: queue)
            ⟨5, ⟨"ACGT", [⟨"t", "ACGT", "ACGT", 0, 4⟩]⟩, []⟩
          = WorkerRun.after [Event.pop next]
              (Consensus.whileLoop ⟨1, 2, 2, 0⟩ demoToolkit queue
                { (⟨5, ⟨"ACGT", [⟨"t", "ACGT", "ACGT", 0, 4⟩]⟩, []⟩ : Locals) with
                  td := next }) :=
  Consensus_coverage_filter ⟨1, 2, 2, 0⟩ demoToolkit
    ⟨5, ⟨"ACGT", [⟨"t", "ACGT", "ACGT", 0, 4⟩]⟩, []⟩ (by decide) (by decide)

/-- C5. Record format: for a group with at least `minCov` alignments the
pass through the loop body pushes exactly one record per result of the
consensus call, in the order of the results and nothing else; the record
of a result is `>` id `/` counter `/` rangeStart `_` rangeEnd, a newline,
the sequence and a newline, all numbers in decimal, where the id is
`alns[0].id`, the range and sequence are those of the result, and the
counter is the worker's counter, incremented after each record. -/
theorem Consensus_record_format {G : Type} (popts : ProgramOpts) (tk : AlnToolkit G)
    (st : Locals) (hcov : popts.minCov ≤ st.td.alns.length) :
    pushedRecords (Consensus.body popts tk st).2
      = List.zipWith
          (fun counter result =>
            ">" ++ frontId st.td.alns ++ "/" ++ toString counter ++ "/" ++
              toString result.range0 ++ "_" ++ toString result.range1 ++ "\n" ++
              result.seq ++ "\n")
          (List.iterate increment st.fake_well_counter
            (tk.consensus (Consensus.graph popts tk st.td) popts.minCov popts.minLen).length)
          (tk.consensus (Consensus.graph popts tk st.td) popts.minCov popts.minLen) :=
  Consensus_body_pushed popts tk st hcov

/-- Witness of C5: a group of two alignments under `minCov = 2`, giving
two records. -/
theorem Consensus_record_format_witness :
    pushedRecords (Consensus.body ⟨1, 2, 3, 1⟩ demoToolkit
        ⟨41, ⟨"ACGT", [⟨"t", "ACGTA", "ACGTA", 0, 4⟩, ⟨"u", "CGTAC", "CGTAC", 1, 5⟩]⟩, []⟩).2
      = [">t/41/0_4\nCGT\n", ">t/42/1_5\nGTA\n"] :=
  (Consensus_record_format ⟨1, 2, 3, 1⟩ demoToolkit
    ⟨41, ⟨"ACGT", [⟨"t", "ACGTA", "ACGTA", 0, 4⟩, ⟨"u", "CGTAC", "CGTAC", 1, 5⟩]⟩, []⟩
    (by decide)).trans (by decide)

/-- C6, as stated, fails: with `minLen = 3` and a group whose first
alignment (id `t1`) is too short while the next two (id `t2`) survive, the
worker pushes a record that is not a record headed by the id of the first
surviving alignment, whatever the other fields. -/
theorem Consensus_header_id_counterexample :
    ∃ rec ∈ pushedRecords (Consensus.body ⟨1, 2, 3, 0⟩ demoToolkit
        ⟨7, ⟨"ACGT", [⟨"t1", "AC", "AC", 0, 2⟩, ⟨"t2", "ACGT", "ACGT", 0, 4⟩,
          ⟨"t2", "CGT", "CGT", 1, 4⟩]⟩, []⟩).2,
      ∃ a, firstSurviving ⟨1, 2, 3, 0⟩
          [⟨"t1", "AC", "AC", 0, 2⟩, ⟨"t2", "ACGT", "ACGT", 0, 4⟩, ⟨"t2", "CGT", "CGT", 1, 4⟩]
            = some a ∧
        ∀ (counter rangeStart rangeEnd : Int) (sequence : String),
          rec ≠ ">" ++ a.id ++ "/" ++ toString counter ++ "/" ++ toString rangeStart ++ "_" ++
            toString rangeEnd ++ "\n" ++ sequence ++ "\n" := by
  refine ⟨">t1/7/0_4\nACGT\n", by decide, ⟨"t2", "ACGT", "ACGT", 0, 4⟩, by decide, ?_⟩
  intro counter rangeStart rangeEnd sequence h
  have hdata := congrArg String.data h
  simp at hdata

/-- C6, amended: every record pushed for a group with at least `minCov`
alignments is headed by the id of the first alignment of the group, in
group order, whether or not that alignment is long enough to be passed on
to the graph; the other fields are a counter value and the range and
sequence of one of the results. -/
theorem Consensus_header_id_first_alignment {G : Type} (popts : ProgramOpts)
    (tk : AlnToolkit G) (st : Locals) (a : Alignment) (rest : AlnVec)
    (hfirst : st.td.alns = a :: rest) (hcov : popts.minCov ≤ st.td.alns.length) :
    ∀ rec ∈ pushedRecords (Consensus.body popts tk st).2,
      ∃ (counter : Int) (result : CnsResult),
        result ∈ tk.consensus (Consensus.graph popts tk st.td) popts.minCov popts.minLen ∧
        rec = ">" ++ a.id ++ "/" ++ toString counter ++ "/" ++ toString result.range0 ++ "_" ++
          toString result.range1 ++ "\n" ++ result.seq ++ "\n" := by
  intro rec hrec
  rw [Consensus_body_pushed popts tk st hcov] at hrec
  obtain ⟨c, r, hr, hx⟩ := mem_zipWith_exists _ _ _ _ hrec
  refine ⟨c, r, hr, ?_⟩
  rw [hx, hfirst]
  rfl

/-- Witness of C6, amended: the group of the counterexample; its first
record is headed by `t1`. -/
theorem Consensus_header_id_first_alignment_witness :
    ∃ (counter : Int) (result : CnsResult),
      result ∈ demoToolkit.consensus (Consensus.graph ⟨1, 2, 3, 0⟩ demoToolkit
        ⟨"ACGT", [⟨"t1", "AC", "AC", 0, 2⟩, ⟨"t2", "ACGT", "ACGT", 0, 4⟩,
          ⟨"t2", "CGT", "CGT", 1, 4⟩]⟩) 2 3 ∧
      ">t1/7/0_4\nACGT\n"
        = ">" ++ "t1" ++ "/" ++ toString counter ++ "/" ++ toString result.range0 ++ "_" ++
          toString result.range1 ++ "\n" ++ result.seq ++ "\n" :=
  Consensus_header_id_first_alignment ⟨1, 2, 3, 0⟩ demoToolkit
    ⟨7, ⟨"ACGT", [⟨"t1", "AC", "AC", 0, 2⟩, ⟨"t2", "ACGT", "ACGT", 0, 4⟩,
      ⟨"t2", "CGT", "CGT", 1, 4⟩]⟩, []⟩
    ⟨"t1", "AC", "AC", 0, 2⟩ [⟨"t2", "ACGT", "ACGT", 0, 4⟩, ⟨"t2", "CGT", "CGT", 1, 4⟩]
    rfl (by decide) ">t1/7/0_4\nACGT\n" (by decide)

/-- C9. Alignment length filter: for a group with at least `minCov`
alignments, the alignments passed to `addAln` are exactly the group's
alignments whose aligned query string has at least `minLen` characters, in
group order, each as its gap-normalized and then trimmed copy; each
alignment passed is the copy of one that is long enough; the graph on
which consensus is computed is built from exactly these; the group held
in `td` is unchanged; and when every alignment is shorter than `minLen`
nothing is passed. -/
theorem Consensus_length_filter {G : Type} (popts : ProgramOpts) (tk : AlnToolkit G)
    (st : Locals) (hcov : popts.minCov ≤ st.td.alns.length) :
    addedAlns (Consensus.body popts tk st).2
        = (st.td.alns.filter (fun a => decide (popts.minLen ≤ a.qstr.length))).map
            (fun a => tk.trimAln (tk.normalizeGaps a) popts.trim) ∧
      (∀ p ∈ addedAlns (Consensus.body popts tk st).2,
        ∃ a ∈ st.td.alns, popts.minLen ≤ a.qstr.length ∧
          p = tk.trimAln (tk.normalizeGaps a) popts.trim) ∧
      Consensus.graph popts tk st.td
        = tk.mergeNodes
            (((st.td.alns.filter (fun a => decide (popts.minLen ≤ a.qstr.length))).map
              (fun a => tk.trimAln (tk.normalizeGaps a) popts.trim)).foldl tk.addAln
                (tk.newGraph st.td.targSeq)) ∧
      (Consensus.body popts tk st).1.td = st.td ∧
      ((∀ a ∈ st.td.alns, a.qstr.length < popts.minLen) →
        addedAlns (Consensus.body popts tk st).2 = []) := by
  have h : ¬ st.td.alns.length < popts.minCov := by omega
  have hadded : addedAlns (Consensus.body popts tk st).2
      = (st.td.alns.filter (fun a => decide (popts.minLen ≤ a.qstr.length))).map
          (fun a => tk.trimAln (tk.normalizeGaps a) popts.trim) := by
    simp only [Consensus.body, h, if_false]
    simp only [addedAlns, addedAlns_append, Consensus_addAlns_events,
      Consensus_pushSeqs_events, addedAlns_zipWith_push, List.append_nil]
    exact addedAlns_map_addAln _ _
  refine ⟨hadded, ?_, ?_, ?_, ?_⟩
  · intro p hp
    rw [hadded] at hp
    simp only [List.mem_map, List.mem_filter, decide_eq_true_eq] at hp
    obtain ⟨a, ⟨ha, hlen⟩, rfl⟩ := hp
    exact ⟨a, ha, hlen, rfl⟩
  · simp [Consensus.graph, Consensus_addAlns_graph]
  · simp [Consensus.body, h]
  · intro hshort
    rw [hadded]
    have : st.td.alns.filter (fun a => decide (popts.minLen ≤ a.qstr.length)) = [] := by
      rw [List.filter_eq_nil_iff]
      intro a ha
      have := hshort a ha
      simp
      omega
    simp [this]

/-- Witness of C9: of three alignments the one of two characters is left
out and the other two are passed on trimmed by one character. -/
theorem Consensus_length_filter_witness :
    addedAlns (Consensus.body ⟨1, 2, 3, 1⟩ demoToolkit
        ⟨0, ⟨"ACGT", [⟨"t", "ACGTA", "ACGTA", 0, 4⟩, ⟨"t", "AC", "AC", 0, 2⟩,
          ⟨"t", "CGTAC", "CGTAC", 1, 5⟩]⟩, []⟩).2
      = [⟨"t", "CGT", "CGT", 0, 4⟩, ⟨"t", "GTA", "GTA", 1, 5⟩] :=
  (Consensus_length_filter ⟨1, 2, 3, 1⟩ demoToolkit
    ⟨0, ⟨"ACGT", [⟨"t", "ACGTA", "ACGTA", 0, 4⟩, ⟨"t", "AC", "AC", 0, 2⟩,
      ⟨"t", "CGTAC", "CGTAC", 1, 5⟩]⟩, []⟩ (by decide)).1.trans (by decide)

theorem iterate_append {α : Type} (f : α → α) (a : α) (m n : Nat) :
    List.iterate f a (m + n) = List.iterate f a m ++ List.iterate f (f^[m] a) n := by
  induction m generalizing a with
  | zero => simp [List.iterate]
  | succ m ih =>
    rw [Nat.succ_add]
    simp [List.iterate, ih]

theorem zipWith_iterate_append {α β γ : Type} (r : α → β → γ) (f : α → α) (a : α)
    (xs ys : List β) :
    List.zipWith r (List.iterate f a (xs ++ ys).length) (xs ++ ys)
      = List.zipWith r (List.iterate f a xs.length) xs ++
          List.zipWith r (List.iterate f (f^[xs.length] a) ys.length) ys := by
  rw [List.length_append, iterate_append]
  exact List.zipWith_append _ _ _ _ _ (by simp)

theorem zipWith_map_right {α β γ δ : Type} (r : α → γ → δ) (g : β → γ) (cs : List α)
    (xs : List β) :
    List.zipWith r cs (xs.map g) = List.zipWith (fun c x => r c (g x)) cs xs := by
  induction cs generalizing xs with
  | nil => simp
  | cons c cs ih =>
    cases xs with
    | nil => simp
    | cons x xs => simp [ih]

theorem Consensus_body_fields {G : Type} (popts : ProgramOpts) (tk : AlnToolkit G)
    (st : Locals) :
    pushedRecords (Consensus.body popts tk st).2
      = List.zipWith recordOf
          (List.iterate increment st.fake_well_counter (groupFields popts tk st.td).length)
          (groupFields popts tk st.td) := by
  by_cases h : st.td.alns.length < popts.minCov
  · simp [Consensus.body, groupFields, h, pushedRecords]
  · rw [Consensus_body_pushed popts tk st (by omega)]
    simp only [groupFields, h, if_false, List.length_map, zipWith_map_right]
    rfl

theorem Consensus_whileLoop_fields {G : Type} (popts : ProgramOpts) (tk : AlnToolkit G)
    (queue : List TargetData) :
    ∀ st : Locals,
      pushedRecords (Consensus.whileLoop popts tk queue st).events
        = List.zipWith recordOf
            (List.iterate increment st.fake_well_counter
              (runFields popts tk (st.td :: queue)).length)
            (runFields popts tk (st.td :: queue)) ++
          (if (Consensus.whileLoop popts tk queue st).status = .returned then [""] else []) := by
  induction queue with
  | nil =>
    intro st
    by_cases hne : st.td.alns = []
    · rw [Consensus_whileLoop_sentinel popts tk [] st hne]
      simp [runFields, hne, pushedRecords]
    · have hpos : 0 < st.td.alns.length := List.length_pos.mpr hne
      rw [Consensus.whileLoop]
      simp [hpos, runFields, Consensus_body_fields]
  | cons next queue ih =>
    intro st
    by_cases hne : st.td.alns = []
    · rw [Consensus_whileLoop_sentinel popts tk _ st hne]
      simp [runFields, hne, pushedRecords]
    · have hpos : 0 < st.td.alns.length := List.length_pos.mpr hne
      rw [Consensus_whileLoop_next popts tk next queue st hne]
      have hrun : runFields popts tk (st.td :: next :: queue)
          = groupFields popts tk st.td ++ runFields popts tk (next :: queue) := by
        simp [runFields, hpos]
      have hctr := Consensus_body_counter popts tk st
      rw [Consensus_body_fields, List.length_zipWith, List.length_iterate, Nat.min_self]
        at hctr
      rw [hrun, zipWith_iterate_append, ← hctr]
      have hev : ∀ run : WorkerRun,
          pushedRecords
              (WorkerRun.after ((Consensus.body popts tk st).2 ++ [Event.pop next]) run).events
            = pushedRecords (Consensus.body popts tk st).2 ++ pushedRecords run.events := by
        intro run
        simp [WorkerRun.after, pushedRecords_append, pushedRecords]
      have hst : ∀ run : WorkerRun,
          (WorkerRun.after ((Consensus.body popts tk st).2 ++ [Event.pop next]) run).status
            = run.status := fun _ => rfl
      rw [hev, hst, Consensus_body_fields, List.append_assoc]
      congr 1
      exact ih { (Consensus.body popts tk st).1 with td := next }

/-- C10, failing input. The property: within one worker run each record's
counter is exactly one greater than the counter of the record pushed
before it. The source never initialises `fake_well_counter` (line 62), so
the first counter is whatever the variable happens to hold; when that is
2147483647 and the worker pops one group giving two results, the code
pushes the counters 2147483647 and then -2147483648, which is not one
greater. -/
theorem Consensus_counter_wraps :
    pushedRecords (Consensus ⟨1, 2, 3, 1⟩ demoToolkit 2147483647
        [⟨"ACGT", [⟨"t", "ACGTA", "ACGTA", 0, 4⟩, ⟨"t", "CGTAC", "CGTAC", 1, 5⟩]⟩,
          sentinel]).events
      = [recordOf 2147483647 ("t", ⟨0, 4, "CGT"⟩), recordOf (-2147483648) ("t", ⟨1, 5, "GTA"⟩),
          ""] ∧
      (-2147483648 : Int) ≠ 2147483647 + 1 := by
  decide

/-- The counters of a whole worker run: the records pushed are, in push
order, those of the groups popped before the first sentinel, and the k-th
of them carries the counter obtained from the value the counter first
holds by k increments, across groups and whatever the number of groups
without record in between, followed by the empty record when the worker
returns; an increment makes the counter exactly one greater whenever it
is below 2147483647, so the counters go up by one as long as the value the
uninitialised counter first holds leaves room. -/
theorem Consensus_counter_steps {G : Type} (popts : ProgramOpts) (tk : AlnToolkit G)
    (garbage : Int) (queue : List TargetData) :
    pushedRecords (Consensus popts tk garbage queue).events
        = List.zipWith recordOf
            (List.iterate increment garbage (runFields popts tk queue).length)
            (runFields popts tk queue) ++
          (if (Consensus popts tk garbage queue).status = .returned then [""] else []) ∧
      ∀ c : Int, -2147483648 ≤ c → c < 2147483647 → increment c = c + 1 := by
  refine ⟨?_, fun c hlo hhi => wrapInt32_of_inRange (c + 1) (by omega) (by omega)⟩
  cases queue with
  | nil => simp [Consensus, runFields, pushedRecords]
  | cons td queue =>
    have := Consensus_whileLoop_fields popts tk queue
      { fake_well_counter := garbage, td := td, seqs := [] }
    simp only [Consensus, WorkerRun.after, pushedRecords, List.nil_append] at this ⊢
    exact this

/-- An instance of `Consensus_counter_steps`: a worker whose counter first
holds 41 and that pops a group with two results, a group below the
coverage bound, a group with one result and the sentinel pushes the
counters 41, 42 and 43. -/
theorem Consensus_counter_steps_witness :
    pushedRecords (Consensus ⟨1, 1, 3, 1⟩ demoToolkit 41
        [⟨"ACGT", [⟨"t", "ACGTA", "ACGTA", 0, 4⟩, ⟨"t", "CGTAC", "CGTAC", 1, 5⟩]⟩,
          ⟨"GG", [⟨"u", "GG", "GG", 0, 2⟩]⟩,
          ⟨"TTTTT", [⟨"v", "TTTTT", "TTTTT", 0, 5⟩]⟩, sentinel]).events
      = [">t/41/0_4\nCGT\n", ">t/42/1_5\nGTA\n", ">v/43/0_5\nTTT\n", ""] ∧
      increment 41 = 42 :=
  ⟨(Consensus_counter_steps ⟨1, 1, 3, 1⟩ demoToolkit 41
      [⟨"ACGT", [⟨"t", "ACGTA", "ACGTA", 0, 4⟩, ⟨"t", "CGTAC", "CGTAC", 1, 5⟩]⟩,
        ⟨"GG", [⟨"u", "GG", "GG", 0, 2⟩]⟩,
        ⟨"TTTTT", [⟨"v", "TTTTT", "TTTTT", 0, 5⟩]⟩, sentinel]).1.trans (by decide),
    (Consensus_counter_steps ⟨1, 1, 3, 1⟩ demoToolkit 41 []).2 41 (by decide) (by decide)⟩

/-! ## The pipeline: every interleaving is finite -/

theorem Consensus_body_pushed_length {G : Type} (popts : ProgramOpts) (tk : AlnToolkit G)
    (st : Locals) (hne : 0 < st.td.alns.length) :
    (pushedRecords (Consensus.body popts tk st).2).length = recordsOf popts tk st.td := by
  by_cases h : st.td.alns.length < popts.minCov
  · simp [Consensus.body, h, pushedRecords, recordsOf, hne]
  · rw [Consensus_body_pushed popts tk st (by omega)]
    simp [recordsOf, hne, h, List.length_zipWith, List.length_iterate]

theorem afterPop_toPush_length {G : Type} (popts : ProgramOpts) (tk : AlnToolkit G)
    (w : WorkerTask) (td : TargetData) :
    (w.afterPop popts tk td).toPush.length = recordsOf popts tk td := by
  by_cases h : 0 < td.alns.length
  · have hb := Consensus_body_pushed_length popts tk { w.locals with td := td } h
    simp only [WorkerTask.afterPop, gt_iff_lt, h, if_true]
    exact hb
  · simp [WorkerTask.afterPop, recordsOf, h]

theorem Step_opsLeft {G : Type} (popts : ProgramOpts) (tk : AlnToolkit G) (s t : Pipeline)
    (h : Step popts tk s t) : Pipeline.opsLeft popts tk t + 1 = Pipeline.opsLeft popts tk s := by
  cases h with
  | readerPush td rest hpush hroom =>
    simp only [Pipeline.opsLeft, hpush, List.map_append, List.sum_append, List.map_cons,
      List.sum_cons, List.map_nil, List.sum_nil]
    omega
  | workerPop before w after td rest hw hnone hsaw hbuf =>
    simp only [Pipeline.opsLeft, hw, hbuf, List.map_append, List.sum_append, List.map_cons,
      List.sum_cons, afterPop_toPush_length, hnone, List.length_nil]
    omega
  | workerPush before w after r rest hw hpush hroom =>
    simp only [Pipeline.opsLeft, hw, hpush, List.map_append, List.sum_append, List.map_cons,
      List.sum_cons, WorkerTask.afterPush, List.length_cons, List.length_append,
      List.length_nil]
    omega
  | writerPop cns rest hrun hbuf =>
    simp only [Pipeline.opsLeft, hbuf, List.length_cons]
    omega

theorem Run_opsLeft {G : Type} (popts : ProgramOpts) (tk : AlnToolkit G) (n : Nat)
    (s t : Pipeline) (h : Run popts tk n s t) :
    Pipeline.opsLeft popts tk t + n = Pipeline.opsLeft popts tk s := by
  induction h with
  | start => rfl
  | next n s t u _ hstep ih =>
    have := Step_opsLeft popts tk t u hstep
    omega

theorem Run_head {G : Type} (popts : ProgramOpts) (tk : AlnToolkit G) (n : Nat)
    (s t u : Pipeline) (hstep : Step popts tk s t) (h : Run popts tk n t u) :
    Run popts tk (n + 1) s u := by
  induction h with
  | start t => exact Run.next 0 s s t (Run.start s) hstep
  | next n t v u _ hvu ih => exact Run.next (n + 1) s v u (ih hstep) hvu

theorem exists_run_to_stuck {G : Type} (popts : ProgramOpts) (tk : AlnToolkit G) :
    ∀ (k : Nat) (s : Pipeline), Pipeline.opsLeft popts tk s = k →
      ∃ n t, Run popts tk n s t ∧ Stuck popts tk t := by
  intro k
  induction k with
  | zero =>
    intro s hs
    refine ⟨0, s, Run.start s, ?_⟩
    intro t hstep
    have := Step_opsLeft popts tk s t hstep
    omega
  | succ k ih =>
    intro s hs
    by_cases hstuck : Stuck popts tk s
    · exact ⟨0, s, Run.start s, hstuck⟩
    · simp only [Stuck, not_forall, not_not] at hstuck
      obtain ⟨t, hstep⟩ := hstuck
      have hdec := Step_opsLeft popts tk s t hstep
      obtain ⟨n, u, hrun, hu⟩ := ih t (by omega)
      exact ⟨n + 1, u, Run_head popts tk n s t u hstep hrun, hu⟩

/-! ## The pipeline: what holds at every moment -/

theorem notSaw_split (before after : List WorkerTask) (w : WorkerTask) :
    notSaw (before ++ w :: after)
      = notSaw before + (if w.sawSentinel then 0 else 1) + notSaw after := by
  cases hsaw : w.sawSentinel
  · simp [notSaw, List.countP_append, List.countP_cons, hsaw]
    omega
  · simp [notSaw, List.countP_append, List.countP_cons, hsaw]

theorem pushedEmpties_split (before after : List WorkerTask) (w : WorkerTask) :
    pushedEmpties (before ++ w :: after)
      = pushedEmpties before + (pushedRecords w.events).count "" + pushedEmpties after := by
  simp [pushedEmpties, List.map_append, List.sum_append]
  omega

theorem head_real (td g : TargetData) (rest real : List TargetData) (k : Nat)
    (hseq : td :: rest = real ++ List.replicate k g) (hg : g.alns = [])
    (htd : td.alns ≠ []) :
    ∃ real', real = td :: real' ∧ rest = real' ++ List.replicate k g := by
  cases real with
  | nil =>
    exfalso
    cases k with
    | zero => simp at hseq
    | succ k =>
      simp [List.replicate_succ] at hseq
      exact htd (hseq.1 ▸ hg)
  | cons r real' =>
    simp at hseq
    exact ⟨real', by rw [hseq.1], hseq.2⟩

theorem head_sentinel (td g : TargetData) (rest real : List TargetData) (k : Nat)
    (hseq : td :: rest = real ++ List.replicate k g)
    (hreal : ∀ x ∈ real, x.alns ≠ []) (htd : td.alns = []) :
    real = [] ∧ ∃ k', k = k' + 1 ∧ rest = List.replicate k' g := by
  cases real with
  | nil =>
    refine ⟨rfl, ?_⟩
    cases k with
    | zero => simp at hseq
    | succ k =>
      simp [List.replicate_succ] at hseq
      exact ⟨k, rfl, hseq.2⟩
  | cons r real' =>
    exfalso
    simp at hseq
    exact hreal r (by simp) (hseq.1 ▸ htd)

theorem afterPop_real {G : Type} (popts : ProgramOpts) (tk : AlnToolkit G) (w : WorkerTask)
    (td : TargetData) (htd : td.alns ≠ []) :
    (w.afterPop popts tk td).sawSentinel = false ∧
      (w.afterPop popts tk td).events = w.events ++ [Event.pop td] ∧
      "" ∉ (w.afterPop popts tk td).toPush := by
  have hpos : 0 < td.alns.length := List.length_pos.mpr htd
  simp only [WorkerTask.afterPop, gt_iff_lt, hpos, if_true, true_and]
  exact Consensus_body_pushes_no_empty popts tk _

theorem afterPop_sentinel {G : Type} (popts : ProgramOpts) (tk : AlnToolkit G) (w : WorkerTask)
    (td : TargetData) (htd : td.alns = []) :
    (w.afterPop popts tk td).sawSentinel = true ∧
      (w.afterPop popts tk td).events = w.events ++ [Event.pop td] ∧
      (w.afterPop popts tk td).toPush = [""] := by
  simp [WorkerTask.afterPop, htd]

theorem WorkerOk_afterPop {G : Type} (popts : ProgramOpts) (tk : AlnToolkit G) (w : WorkerTask)
    (td : TargetData) (hok : WorkerOk w) (hnone : w.toPush = []) (hsaw : w.sawSentinel = false) :
    WorkerOk (w.afterPop popts tk td) := by
  obtain ⟨hpop, hpush, _⟩ := hok
  simp only [hsaw, hnone, List.count_nil, Nat.add_zero] at hpop hpush
  by_cases htd : td.alns = []
  · obtain ⟨h1, h2, h3⟩ := afterPop_sentinel popts tk w td htd
    refine ⟨?_, ?_, ?_⟩
    · rw [h1, h2, poppedGroups_append]
      simp [sentinelCountOf, poppedGroups, htd] at hpop ⊢
      exact hpop
    · rw [h1, h2, h3, pushedRecords_append]
      simp [pushedRecords] at hpush ⊢
      exact hpush
    · intro _ r hr
      rw [h3] at hr
      simpa using hr
  · obtain ⟨h1, h2, h3⟩ := afterPop_real popts tk w td htd
    refine ⟨?_, ?_, ?_⟩
    · rw [h1, h2, poppedGroups_append]
      simp [sentinelCountOf, poppedGroups, htd] at hpop ⊢
      exact hpop
    · rw [h1, h2, pushedRecords_append]
      simp [pushedRecords, List.count_eq_zero_of_not_mem h3] at hpush ⊢
      exact hpush
    · intro hs
      rw [h1] at hs
      cases hs

theorem WorkerOk_afterPush (w : WorkerTask) (r : String) (rest : List String)
    (hok : WorkerOk w) (hpush : w.toPush = r :: rest) : WorkerOk (w.afterPush r rest) := by
  obtain ⟨hpop, hcount, hall⟩ := hok
  refine ⟨?_, ?_, ?_⟩
  · simpa [WorkerTask.afterPush, poppedGroups_append, poppedGroups] using hpop
  · rw [hpush] at hcount
    simp only [WorkerTask.afterPush, pushedRecords_append, pushedRecords, List.count_append]
    by_cases hr : r = ""
    · subst hr
      simp only [List.count_cons_self, List.count_nil] at hcount ⊢
      omega
    · have hr' : ¬ ("" = r) := fun h => hr h.symm
      rw [List.count_cons_of_ne hr'] at hcount
      rw [List.count_cons_of_ne hr']
      simpa using hcount
  · intro hs x hx
    exact hall hs x (by rw [hpush]; simp [hx, WorkerTask.afterPush] at hx ⊢; exact Or.inr hx)

theorem Step_Inv {G : Type} (popts : ProgramOpts) (tk : AlnToolkit G) (n : Nat)
    (fwd : List TargetData) (hn : (n : Int) = popts.threads)
    (hint : popts.threads ≤ 2147483647) (s t : Pipeline) (inv : Inv popts n fwd s)
    (h : Step popts tk s t) : Inv popts n fwd t := by
  obtain ⟨hlen, hghost, ⟨real, hseq, hreal, hor⟩, hok, hcons, hwc, hwr, hwd⟩ := inv
  cases h with
  | readerPush td rest hpush hroom =>
    refine ⟨hlen, ?_, ⟨real, ?_, hreal, hor⟩, hok, hcons, hwc, hwr, hwd⟩
    · simpa [hpush] using hghost
    · simpa [hpush] using hseq
  | workerPop before w after td rest hw hnone hsaw hbuf =>
    have hwmem : w ∈ s.workers := by rw [hw]; simp
    have hwok := hok w hwmem
    have hok' : ∀ x ∈ before ++ w.afterPop popts tk td :: after, WorkerOk x := by
      intro x hx
      simp only [List.mem_append, List.mem_cons] at hx
      rcases hx with hx | hx | hx
      · exact hok x (by rw [hw]; simp [hx])
      · rw [hx]; exact WorkerOk_afterPop popts tk w td hwok hnone hsaw
      · exact hok x (by rw [hw]; simp [hx])
    have hlen' : (before ++ w.afterPop popts tk td :: after).length = n := by
      rw [← hlen, hw]; simp
    rw [hbuf, List.cons_append] at hseq
    rw [hw, notSaw_split, hsaw] at hseq hor
    simp only [Bool.false_eq_true, if_false] at hseq hor
    by_cases htd : td.alns = []
    · obtain ⟨h1, h2, h3⟩ := afterPop_sentinel popts tk w td htd
      obtain ⟨hnil, k', hk', hrest⟩ := head_sentinel td sentinel _ real _ hseq hreal htd
      refine ⟨hlen', hghost, ⟨[], ?_, by simp, Or.inl rfl⟩, hok', ?_, hwc, hwr, hwd⟩
      · show rest ++ s.reader.toPush = _
        rw [hrest, notSaw_split, h1]
        simp only [if_true, List.nil_append]
        congr 1
        omega
      · show s.cnsBuf.count "" + s.writer.popped.count "" = _
        rw [hcons, hw, pushedEmpties_split, pushedEmpties_split, h2, pushedRecords_append]
        simp [pushedRecords]
    · obtain ⟨h1, h2, h3⟩ := afterPop_real popts tk w td htd
      obtain ⟨real', hreal', hrest⟩ := head_real td sentinel _ real _ hseq rfl htd
      have hnotSaw : notSaw (before ++ w.afterPop popts tk td :: after)
          = notSaw before + 1 + notSaw after := by
        rw [notSaw_split, h1]; simp
      refine ⟨hlen', hghost, ⟨real', ?_, ?_, ?_⟩, hok', ?_, hwc, hwr, hwd⟩
      · show rest ++ s.reader.toPush = _
        rw [hrest, hnotSaw]
      · intro g hg
        exact hreal g (by rw [hreal']; simp [hg])
      · right
        show notSaw (before ++ w.afterPop popts tk td :: after) = n
        rw [hnotSaw]
        rcases hor with hor | hor
        · rw [hreal'] at hor; cases hor
        · exact hor
      · show s.cnsBuf.count "" + s.writer.popped.count "" = _
        rw [hcons, hw, pushedEmpties_split, pushedEmpties_split, h2, pushedRecords_append]
        simp [pushedRecords]
  | workerPush before w after r rest hw hpush hroom =>
    have hwmem : w ∈ s.workers := by rw [hw]; simp
    have hwok := hok w hwmem
    have hok' : ∀ x ∈ before ++ w.afterPush r rest :: after, WorkerOk x := by
      intro x hx
      simp only [List.mem_append, List.mem_cons] at hx
      rcases hx with hx | hx | hx
      · exact hok x (by rw [hw]; simp [hx])
      · rw [hx]; exact WorkerOk_afterPush w r rest hwok hpush
      · exact hok x (by rw [hw]; simp [hx])
    have hlen' : (before ++ w.afterPush r rest :: after).length = n := by
      rw [← hlen, hw]; simp
    have hnotSaw : notSaw (before ++ w.afterPush r rest :: after) = notSaw s.workers := by
      rw [hw, notSaw_split, notSaw_split]; rfl
    refine ⟨hlen', hghost, ⟨real, ?_, hreal, ?_⟩, hok', ?_, hwc, hwr, hwd⟩
    · show s.trgBuf ++ s.reader.toPush = _
      rw [hnotSaw]; exact hseq
    · show real = [] ∨ notSaw (before ++ w.afterPush r rest :: after) = n
      rw [hnotSaw]; exact hor
    · show (s.cnsBuf ++ [r]).count "" + s.writer.popped.count "" = _
      rw [pushedEmpties_split]
      rw [hw, pushedEmpties_split] at hcons
      simp only [WorkerTask.afterPush, pushedRecords_append, pushedRecords, List.count_append]
      omega
  | writerPop cns rest hrun hbuf =>
    have hlt := hwr hrun
    rw [hbuf] at hcons
    by_cases hc : cns = ""
    · subst hc
      rw [List.count_cons_self] at hcons
      have htest := Writer_breakTest_sentinel popts s.writer.sentinelCount (by omega) (by omega)
      refine ⟨hlen, hghost, ⟨real, hseq, hreal, hor⟩, hok, ?_, ?_, ?_, ?_⟩
      · show rest.count "" + (s.writer.popped ++ [""]).count "" = _
        rw [List.count_append]
        simp only [List.count_cons_self, List.count_nil]
        omega
      · show (Writer.breakTest popts "" s.writer.sentinelCount).2
            = (((s.writer.popped ++ [""]).count "" : Nat) : Int)
        rw [htest, List.count_append]
        simp only [List.count_cons_self, List.count_nil]
        push_cast
        omega
      · show (Writer.breakTest popts "" s.writer.sentinelCount).1 = false →
            (s.writer.popped ++ [""]).count "" < n
        rw [htest, List.count_append]
        simp only [List.count_cons_self, List.count_nil, decide_eq_false_iff_not]
        intro hne
        omega
      · show (Writer.breakTest popts "" s.writer.sentinelCount).1 = true →
            (s.writer.popped ++ [""]).count "" = n
        rw [htest, List.count_append]
        simp only [List.count_cons_self, List.count_nil, decide_eq_true_eq]
        intro heq
        omega
    · have hc' : ¬ ("" = cns) := fun h => hc h.symm
      rw [List.count_cons_of_ne hc'] at hcons
      have htest := Writer_breakTest_record popts cns s.writer.sentinelCount hc
      have hcount : (s.writer.popped ++ [cns]).count "" = s.writer.popped.count "" := by
        rw [List.count_append, List.count_cons_of_ne hc']
        simp
      refine ⟨hlen, hghost, ⟨real, hseq, hreal, hor⟩, hok, ?_, ?_, ?_, ?_⟩
      · show rest.count "" + (s.writer.popped ++ [cns]).count "" = _
        rw [hcount]; exact hcons
      · show (Writer.breakTest popts cns s.writer.sentinelCount).2
            = (((s.writer.popped ++ [cns]).count "" : Nat) : Int)
        rw [htest, hcount]; exact hwc
      · show (Writer.breakTest popts cns s.writer.sentinelCount).1 = false →
            (s.writer.popped ++ [cns]).count "" < n
        rw [htest, hcount]; intro _; exact hlt
      · show (Writer.breakTest popts cns s.writer.sentinelCount).1 = true →
            (s.writer.popped ++ [cns]).count "" = n
        rw [htest]; intro hfalse; cases hfalse

theorem Run_Inv {G : Type} (popts : ProgramOpts) (tk : AlnToolkit G) (n : Nat)
    (fwd : List TargetData) (hn : (n : Int) = popts.threads)
    (hint : popts.threads ≤ 2147483647) (k : Nat) (s t : Pipeline)
    (hrun : Run popts tk k s t) (inv : Inv popts n fwd s) : Inv popts n fwd t := by
  induction hrun with
  | start => exact inv
  | next k s t u _ hstep ih => exact Step_Inv popts tk n fwd hn hint t u (ih inv) hstep

theorem notSaw_init (f : Int → Locals) (garbage : List Int) :
    notSaw (garbage.map (fun g =>
      { locals := f g, toPush := [], sawSentinel := false, events := [] })) = garbage.length := by
  induction garbage with
  | nil => rfl
  | cons g gs ih =>
    simp only [notSaw, List.map_cons, List.countP_cons] at ih ⊢
    simp [ih]

theorem pushedEmpties_init (f : Int → Locals) (garbage : List Int) :
    pushedEmpties (garbage.map (fun g =>
      { locals := f g, toPush := [], sawSentinel := false, events := [] })) = 0 := by
  induction garbage with
  | nil => rfl
  | cons g gs ih =>
    simp only [pushedEmpties, List.map_cons, List.sum_cons] at ih ⊢
    rw [ih]
    simp [pushedRecords]

theorem Inv_init (popts : ProgramOpts) (groups : List TargetData) (last : TargetData)
    (garbage : List Int) (hthreads : 1 ≤ popts.threads)
    (hworkers : (garbage.length : Int) = popts.threads) :
    Inv popts garbage.length (forwarded (groups ++ [last]))
      (Pipeline.init popts (groups.map yieldMore ++ [yieldLast last]) garbage) := by
  have hnat : popts.threads.toNat = garbage.length := by omega
  refine ⟨?_, ?_, ⟨forwarded (groups ++ [last]), ?_, forwarded_nonempty _, Or.inr ?_⟩, ?_, ?_,
    ?_, ?_, ?_⟩
  · simp [Pipeline.init]
  · simp [Pipeline.init, Reader_exhausted, hnat]
  · simp only [Pipeline.init, List.nil_append, Reader_exhausted, hnat, notSaw_init]
  · simp only [Pipeline.init, notSaw_init]
  · intro w hw
    simp only [Pipeline.init, List.mem_map] at hw
    obtain ⟨g, _, rfl⟩ := hw
    simp [WorkerOk, sentinelCountOf, poppedGroups, pushedRecords]
  · simp only [Pipeline.init, pushedEmpties_init]
    rfl
  · rfl
  · intro _
    show ([] : List String).count "" < garbage.length
    simp only [List.count_nil]
    omega
  · intro h
    cases h

/-! ## The pipeline: a blocked pipeline has completed -/

theorem sum_le_length {α : Type} (f : α → Nat) (l : List α) (h : ∀ x ∈ l, f x ≤ 1) :
    (l.map f).sum ≤ l.length := by
  induction l with
  | nil => simp
  | cons a l ih =>
    have ha := h a (by simp)
    have hl := ih (fun x hx => h x (by simp [hx]))
    simp only [List.map_cons, List.sum_cons, List.length_cons]
    omega

theorem sum_eq_length {α : Type} (f : α → Nat) (l : List α) (h : ∀ x ∈ l, f x ≤ 1)
    (hsum : (l.map f).sum = l.length) : ∀ x ∈ l, f x = 1 := by
  induction l with
  | nil => intro x hx; cases hx
  | cons a l ih =>
    have ha := h a (by simp)
    have hl := sum_le_length f l (fun x hx => h x (by simp [hx]))
    simp only [List.map_cons, List.sum_cons, List.length_cons] at hsum
    intro x hx
    simp only [List.mem_cons] at hx
    rcases hx with hx | hx
    · rw [hx]; omega
    · exact ih (fun y hy => h y (by simp [hy])) (by omega) x hx

theorem WorkerOk_pushed_le (w : WorkerTask) (hok : WorkerOk w) :
    (pushedRecords w.events).count "" ≤ 1 := by
  obtain ⟨_, hcount, _⟩ := hok
  cases hsaw : w.sawSentinel <;> simp [hsaw] at hcount <;> omega

theorem WorkerOk_done (w : WorkerTask) (hok : WorkerOk w)
    (hone : (pushedRecords w.events).count "" = 1) :
    w.sawSentinel = true ∧ w.toPush = [] ∧ sentinelCountOf (poppedGroups w.events) = 1 := by
  obtain ⟨hpop, hcount, hall⟩ := hok
  cases hsaw : w.sawSentinel with
  | false => simp [hsaw] at hcount; omega
  | true =>
    simp only [hsaw, if_true] at hpop hcount
    refine ⟨rfl, ?_, hpop⟩
    cases hpush : w.toPush with
    | nil => rfl
    | cons r rest =>
      have hr : r = "" := hall hsaw r (by rw [hpush]; simp)
      rw [hpush, hr, List.count_cons_self] at hcount
      omega

theorem Stuck_Completed {G : Type} (popts : ProgramOpts) (tk : AlnToolkit G) (n : Nat)
    (fwd : List TargetData) (hn : (n : Int) = popts.threads) (hpos : 1 ≤ n)
    (hfwd : ∀ g ∈ fwd, g.alns ≠ []) (s : Pipeline) (inv : Inv popts n fwd s)
    (hstuck : Stuck popts tk s) : Completed popts s := by
  obtain ⟨hlen, hghost, ⟨real, hseq, hreal, hor⟩, hok, hcons, hwc, hwr, hwd⟩ := inv
  have hW : s.writer.returned = false → s.cnsBuf = [] := by
    intro hr
    by_contra hne
    obtain ⟨cns, rest, h⟩ := List.exists_cons_of_ne_nil hne
    exact hstuck _ (Step.writerPop s cns rest hr h)
  have hP : s.cnsBuf.length < cnsBufCapacity → ∀ w ∈ s.workers, w.toPush = [] := by
    intro hroom w hw
    by_contra hne
    obtain ⟨r, rest, h⟩ := List.exists_cons_of_ne_nil hne
    obtain ⟨before, after, hsplit⟩ := List.append_of_mem hw
    exact hstuck _ (Step.workerPush s before w after r rest hsplit h hroom)
  have hQ : ∀ w ∈ s.workers, w.toPush = [] → w.sawSentinel = false → s.trgBuf = [] := by
    intro w hw hnone hsaw
    by_contra hne
    obtain ⟨td, rest, h⟩ := List.exists_cons_of_ne_nil hne
    obtain ⟨before, after, hsplit⟩ := List.append_of_mem hw
    exact hstuck _ (Step.workerPop s before w after td rest hsplit hnone hsaw h)
  have hR : s.trgBuf.length < trgBufCapacity → s.reader.toPush = [] := by
    intro hroom
    by_contra hne
    obtain ⟨td, rest, h⟩ := List.exists_cons_of_ne_nil hne
    exact hstuck _ (Step.readerPush s td rest h hroom)
  have hle : ∀ w ∈ s.workers, (pushedRecords w.events).count "" ≤ 1 :=
    fun w hw => WorkerOk_pushed_le w (hok w hw)
  have hret : s.writer.returned = true := by
    by_contra hnot
    have hr : s.writer.returned = false := by simpa using hnot
    have hbuf := hW hr
    have hnone := hP (by simp [hbuf, cnsBufCapacity])
    by_cases hall : ∀ w ∈ s.workers, w.sawSentinel = true
    · have hones : ∀ w ∈ s.workers, (pushedRecords w.events).count "" = 1 := by
        intro w hw
        obtain ⟨_, hcount, _⟩ := hok w hw
        simpa [hall w hw, hnone w hw] using hcount
      have hsum : pushedEmpties s.workers = s.workers.length := by
        unfold pushedEmpties
        rw [List.map_congr_left hones]
        simp
      have hlt := hwr hr
      rw [hbuf] at hcons
      simp only [List.count_nil, Nat.zero_add] at hcons
      omega
    · push_neg at hall
      obtain ⟨w, hw, hsaw⟩ := hall
      have hsaw' : w.sawSentinel = false := by simpa using hsaw
      have htrg := hQ w hw (hnone w hw) hsaw'
      have hrd := hR (by simp [htrg, trgBufCapacity])
      rw [htrg, hrd] at hseq
      have hzero : notSaw s.workers = 0 := by
        have := congrArg List.length hseq
        simp at this
        omega
      have hposs : 0 < notSaw s.workers :=
        List.countP_pos_iff.mpr ⟨w, hw, by simp [hsaw']⟩
      omega
  have hcount := hwd hret
  have hsumle :=
    sum_le_length (fun w : WorkerTask => (pushedRecords w.events).count "") s.workers hle
  have hsum : pushedEmpties s.workers = s.workers.length := by
    unfold pushedEmpties at hcons ⊢
    omega
  have hones :=
    sum_eq_length (fun w : WorkerTask => (pushedRecords w.events).count "") s.workers hle hsum
  have hdone : ∀ w ∈ s.workers, w.sawSentinel = true ∧ w.toPush = [] ∧
      sentinelCountOf (poppedGroups w.events) = 1 :=
    fun w hw => WorkerOk_done w (hok w hw) (hones w hw)
  have hzero : notSaw s.workers = 0 := by
    unfold notSaw
    rw [List.countP_eq_zero]
    intro w hw
    simp [(hdone w hw).1]
  have hrealnil : real = [] := by
    rcases hor with hor | hor
    · exact hor
    · omega
  rw [hzero, hrealnil] at hseq
  simp only [List.replicate_zero, List.append_nil, List.append_eq_nil] at hseq
  refine ⟨hseq.2, ?_, by omega, ?_, hret, by omega⟩
  · rw [hseq.2, List.append_nil] at hghost
    rw [hghost, ← hn]
    congr 1
    unfold sentinelCountOf
    rw [List.countP_append]
    have h1 : List.countP (fun td => td.alns.isEmpty) fwd = 0 := by
      rw [List.countP_eq_zero]
      intro g hg
      simpa using hfwd g hg
    have h2 : List.countP (fun td => td.alns.isEmpty) (List.replicate n sentinel) = n := by
      rw [List.countP_replicate]
      simp [sentinel]
    omega
  · intro w hw
    exact ⟨(hdone w hw).1, (hdone w hw).2.1, (hdone w hw).2.2, hones w hw⟩

/-! ## The pipeline: a provider without targets -/

theorem Step_Quiet {G : Type} (popts : ProgramOpts) (tk : AlnToolkit G) (s t : Pipeline)
    (hq : Quiet s) (h : Step popts tk s t) : Quiet t := by
  obtain ⟨hgroups, hworkers, hbuf, hpopped, hcout⟩ := hq
  cases h with
  | readerPush td rest hpush hroom =>
    refine ⟨?_, hworkers, hbuf, hpopped, hcout⟩
    intro g hg
    exact hgroups g (by rw [hpush]; simpa using hg)
  | workerPop before w after td rest hw hnone hsaw htrg =>
    have htd : td.alns = [] := hgroups td (by rw [htrg]; simp)
    refine ⟨?_, ?_, hbuf, hpopped, hcout⟩
    · intro g hg
      exact hgroups g (by
        rw [htrg]
        simp only [List.mem_append, List.mem_cons] at hg ⊢
        tauto)
    · intro x hx r hr
      simp only [List.mem_append, List.mem_cons] at hx
      rcases hx with hx | hx | hx
      · exact hworkers x (by rw [hw]; simp [hx]) r hr
      · rw [hx, (afterPop_sentinel popts tk w td htd).2.2] at hr
        simpa using hr
      · exact hworkers x (by rw [hw]; simp [hx]) r hr
  | workerPush before w after r rest hw hpush hroom =>
    have hwmem : w ∈ s.workers := by rw [hw]; simp
    have hr : r = "" := hworkers w hwmem r (by rw [hpush]; simp)
    refine ⟨hgroups, ?_, ?_, hpopped, hcout⟩
    · intro x hx y hy
      simp only [List.mem_append, List.mem_cons] at hx
      rcases hx with hx | hx | hx
      · exact hworkers x (by rw [hw]; simp [hx]) y hy
      · rw [hx] at hy
        exact hworkers w hwmem y (by rw [hpush]; simp [WorkerTask.afterPush] at hy ⊢; tauto)
      · exact hworkers x (by rw [hw]; simp [hx]) y hy
    · intro y hy
      simp only [List.mem_append, List.mem_singleton] at hy
      rcases hy with hy | hy
      · exact hbuf y hy
      · rw [hy, hr]
  | writerPop cns rest hrun hcns =>
    have hc : cns = "" := hbuf cns (by rw [hcns]; simp)
    refine ⟨hgroups, hworkers, ?_, ?_, ?_⟩
    · intro y hy
      exact hbuf y (by rw [hcns]; simp [hy])
    · intro y hy
      simp only [WriterTask.afterPop, List.mem_append, List.mem_singleton] at hy
      rcases hy with hy | hy
      · exact hpopped y hy
      · rw [hy, hc]
    · show s.writer.cout ++ cns = ""
      rw [hcout, hc]
      rfl

theorem Run_Quiet {G : Type} (popts : ProgramOpts) (tk : AlnToolkit G) (k : Nat)
    (s t : Pipeline) (hrun : Run popts tk k s t) (hq : Quiet s) : Quiet t := by
  induction hrun with
  | start => exact hq
  | next k s t u _ hstep ih => exact Step_Quiet popts tk t u (ih hq) hstep

theorem Quiet_init (popts : ProgramOpts) (groups : List TargetData) (last : TargetData)
    (garbage : List Int) (hnone : forwarded (groups ++ [last]) = []) :
    Quiet (Pipeline.init popts (groups.map yieldMore ++ [yieldLast last]) garbage) := by
  refine ⟨?_, ?_, ?_, ?_, rfl⟩
  · intro g hg
    simp only [Pipeline.init, List.nil_append, Reader_exhausted, hnone] at hg
    rw [List.eq_of_mem_replicate hg]
    rfl
  · intro w hw r hr
    simp only [Pipeline.init, List.mem_map] at hw
    obtain ⟨g, _, rfl⟩ := hw
    cases hr
  · intro r hr
    cases hr
  · intro r hr
    cases hr

theorem eq_replicate_of_all_empty (l : List String) (h : ∀ r ∈ l, r = "") :
    l = List.replicate (l.count "") "" := by
  induction l with
  | nil => rfl
  | cons r l ih =>
    have hr : r = "" := h r (by simp)
    subst hr
    rw [List.count_cons_self, List.replicate_succ]
    congr 1
    exact ih (fun x hx => h x (by simp [hx]))

/-! ## The pipeline: its threads are the functions `Reader`, `Consensus`, `Writer` -/

theorem Writer_whileLoop_break (popts : ProgramOpts) (queue : List String) (cns : String)
    (sentinelCount sc : Int) (popped : List String) (cout : String)
    (h : Writer.breakTest popts cns sentinelCount = (true, sc)) :
    Writer.whileLoop popts queue cns sentinelCount popped cout
      = { popped := popped, cout := cout ++ cns, sentinelCount := sc, status := .returned } := by
  unfold Writer.whileLoop
  rw [h]

theorem Writer_whileLoop_block (popts : ProgramOpts) (cns : String)
    (sentinelCount sc : Int) (popped : List String) (cout : String)
    (h : Writer.breakTest popts cns sentinelCount = (false, sc)) :
    Writer.whileLoop popts [] cns sentinelCount popped cout
      = { popped := popped, cout := cout ++ cns, sentinelCount := sc,
          status := .blockedInPop } := by
  unfold Writer.whileLoop
  rw [h]

theorem Writer_whileLoop_pop (popts : ProgramOpts) (next : String) (queue : List String)
    (cns : String) (sentinelCount sc : Int) (popped : List String) (cout : String)
    (h : Writer.breakTest popts cns sentinelCount = (false, sc)) :
    Writer.whileLoop popts (next :: queue) cns sentinelCount popped cout
      = Writer.whileLoop popts queue next sc (popped ++ [next]) (cout ++ cns) := by
  rw [Writer.whileLoop.eq_def]
  simp only [h]

theorem Writer_whileLoop_single (popts : ProgramOpts) (c : String) (sentinelCount : Int)
    (popped : List String) (cout : String) :
    Writer.whileLoop popts [] c sentinelCount popped cout
      = { popped := popped
          cout := cout ++ c
          sentinelCount := (Writer.breakTest popts c sentinelCount).2
          status := if (Writer.breakTest popts c sentinelCount).1
            then .returned else .blockedInPop } := by
  cases h : Writer.breakTest popts c sentinelCount with
  | mk b sc =>
    cases b with
    | true => rw [Writer_whileLoop_break popts [] c sentinelCount sc popped cout h]; rfl
    | false => rw [Writer_whileLoop_block popts c sentinelCount sc popped cout h]; rfl

theorem Writer_whileLoop_snoc (popts : ProgramOpts) (c : String) (queue : List String) :
    ∀ (cns : String) (sentinelCount : Int) (popped : List String) (cout : String),
      (Writer.whileLoop popts queue cns sentinelCount popped cout).status = .blockedInPop →
      Writer.whileLoop popts (queue ++ [c]) cns sentinelCount popped cout
        = { popped := (Writer.whileLoop popts queue cns sentinelCount popped cout).popped ++ [c]
            cout := (Writer.whileLoop popts queue cns sentinelCount popped cout).cout ++ c
            sentinelCount := (Writer.breakTest popts c
              (Writer.whileLoop popts queue cns sentinelCount popped cout).sentinelCount).2
            status := if (Writer.breakTest popts c
                (Writer.whileLoop popts queue cns sentinelCount popped cout).sentinelCount).1
              then .returned else .blockedInPop } := by
  induction queue with
  | nil =>
    intro cns sentinelCount popped cout hblocked
    cases h : Writer.breakTest popts cns sentinelCount with
    | mk b sc =>
      cases b with
      | true =>
        rw [Writer_whileLoop_break popts [] cns sentinelCount sc popped cout h] at hblocked
        cases hblocked
      | false =>
        rw [List.nil_append, Writer_whileLoop_pop popts c [] cns sentinelCount sc popped cout h,
          Writer_whileLoop_block popts cns sentinelCount sc popped cout h,
          Writer_whileLoop_single]
  | cons next queue ih =>
    intro cns sentinelCount popped cout hblocked
    cases h : Writer.breakTest popts cns sentinelCount with
    | mk b sc =>
      cases b with
      | true =>
        rw [Writer_whileLoop_break popts _ cns sentinelCount sc popped cout h] at hblocked
        cases hblocked
      | false =>
        rw [Writer_whileLoop_pop popts next queue cns sentinelCount sc popped cout h]
          at hblocked ⊢
        rw [List.cons_append,
          Writer_whileLoop_pop popts next (queue ++ [c]) cns sentinelCount sc popped cout h]
        exact ih next sc (popped ++ [next]) (cout ++ cns) hblocked

theorem Writer_snoc (popts : ProgramOpts) (c : String) (stream : List String)
    (hblocked : (Writer popts stream).status = .blockedInPop)
    (hpopped : (Writer popts stream).popped = stream) :
    Writer popts (stream ++ [c])
      = { popped := stream ++ [c]
          cout := (Writer popts stream).cout ++ c
          sentinelCount := (Writer.breakTest popts c (Writer popts stream).sentinelCount).2
          status := if (Writer.breakTest popts c (Writer popts stream).sentinelCount).1
            then .returned else .blockedInPop } := by
  cases stream with
  | nil =>
    simp only [Writer, List.nil_append]
    rw [Writer_whileLoop_single]
  | cons cns queue =>
    simp only [Writer, List.cons_append] at hblocked hpopped ⊢
    rw [Writer_whileLoop_snoc popts c queue cns 0 [cns] "" hblocked, hpopped]
    rfl

theorem Step_writer_refines {G : Type} (popts : ProgramOpts) (tk : AlnToolkit G)
    (s t : Pipeline) (href : Writer popts s.writer.popped = s.writer.asRun)
    (h : Step popts tk s t) : Writer popts t.writer.popped = t.writer.asRun := by
  cases h with
  | readerPush td rest hpush hroom => exact href
  | workerPop before w after td rest hw hnone hsaw hbuf => exact href
  | workerPush before w after r rest hw hpush hroom => exact href
  | writerPop cns rest hrun hbuf =>
    show Writer popts (s.writer.popped ++ [cns]) = _
    rw [Writer_snoc popts cns s.writer.popped (by rw [href]; simp [WriterTask.asRun, hrun])
      (by rw [href]; rfl), href]
    rfl

theorem bufferOps_append (xs ys : List Event) :
    bufferOps (xs ++ ys) = bufferOps xs ++ bufferOps ys := by
  induction xs with
  | nil => rfl
  | cons e xs ih => cases e <;> simp [bufferOps, ih]

theorem bufferOps_of_no_pop (evs : List Event) (h : poppedGroups evs = []) :
    bufferOps evs = (pushedRecords evs).map Event.push := by
  induction evs with
  | nil => rfl
  | cons e evs ih =>
    cases e with
    | pop td => simp [poppedGroups] at h
    | push cns => simp [poppedGroups, bufferOps, pushedRecords] at h ⊢; exact ih h
    | newGraph targSeq => simp [poppedGroups, bufferOps, pushedRecords] at h ⊢; exact ih h
    | addAln aln => simp [poppedGroups, bufferOps, pushedRecords] at h ⊢; exact ih h
    | mergeNodes => simp [poppedGroups, bufferOps, pushedRecords] at h ⊢; exact ih h
    | consensus minCov minLen =>
      simp [poppedGroups, bufferOps, pushedRecords] at h ⊢; exact ih h

theorem WorkerRun_after_after (xs ys : List Event) (run : WorkerRun) :
    WorkerRun.after xs (WorkerRun.after ys run) = WorkerRun.after (xs ++ ys) run := by
  simp [WorkerRun.after]

theorem Consensus_whileLoop_blocked {G : Type} (popts : ProgramOpts) (tk : AlnToolkit G)
    (queue : List TargetData) (st : Locals)
    (hblocked : (Consensus.whileLoop popts tk queue st).status = .blockedInPop) :
    st.td.alns ≠ [] := by
  intro hs
  rw [Consensus_whileLoop_sentinel popts tk queue st hs] at hblocked
  cases hblocked

theorem Consensus_whileLoop_snoc {G : Type} (popts : ProgramOpts) (tk : AlnToolkit G)
    (td : TargetData) (queue : List TargetData) :
    ∀ st : Locals, (Consensus.whileLoop popts tk queue st).status = .blockedInPop →
      Consensus.whileLoop popts tk (queue ++ [td]) st
        = WorkerRun.after ((Consensus.whileLoop popts tk queue st).events ++ [Event.pop td])
            (Consensus.whileLoop popts tk []
              { (Consensus.whileLoop popts tk queue st).locals with td := td }) := by
  induction queue with
  | nil =>
    intro st hblocked
    have hne := Consensus_whileLoop_blocked popts tk [] st hblocked
    have hpos : 0 < st.td.alns.length := List.length_pos.mpr hne
    rw [List.nil_append, Consensus_whileLoop_next popts tk td [] st hne]
    have hnil : Consensus.whileLoop popts tk [] st
        = { locals := (Consensus.body popts tk st).1
            events := (Consensus.body popts tk st).2
            status := .blockedInPop } := by
      rw [Consensus.whileLoop]
      simp [hpos]
    rw [hnil]
  | cons next queue ih =>
    intro st hblocked
    have hne := Consensus_whileLoop_blocked popts tk _ st hblocked
    rw [Consensus_whileLoop_next popts tk next queue st hne] at hblocked ⊢
    rw [List.cons_append, Consensus_whileLoop_next popts tk next _ st hne,
      ih _ hblocked, WorkerRun_after_after]
    simp [WorkerRun.after, List.append_assoc]

theorem Consensus_snoc {G : Type} (popts : ProgramOpts) (tk : AlnToolkit G) (garbage : Int)
    (td : TargetData) (queue : List TargetData)
    (hblocked : (Consensus popts tk garbage queue).status = .blockedInPop) :
    Consensus popts tk garbage (queue ++ [td])
      = WorkerRun.after ((Consensus popts tk garbage queue).events ++ [Event.pop td])
          (Consensus.whileLoop popts tk []
            { (Consensus popts tk garbage queue).locals with td := td }) := by
  cases queue with
  | nil => simp [Consensus]
  | cons g queue =>
    simp only [Consensus, List.cons_append] at hblocked ⊢
    rw [Consensus_whileLoop_snoc popts tk td queue _ hblocked, WorkerRun_after_after]
    simp [WorkerRun.after]

theorem WorkerRefines_afterPop {G : Type} (popts : ProgramOpts) (tk : AlnToolkit G)
    (garbage : Int) (w : WorkerTask) (td : TargetData) (href : WorkerRefines popts tk garbage w)
    (hnone : w.toPush = []) (hsaw : w.sawSentinel = false) :
    WorkerRefines popts tk garbage (w.afterPop popts tk td) := by
  obtain ⟨hlocals, hstatus, hops⟩ := href
  simp only [hsaw, hnone, List.map_nil, List.append_nil, Bool.false_eq_true, if_false]
    at hstatus hops
  have hpopped : poppedGroups (w.afterPop popts tk td).events
      = poppedGroups w.events ++ [td] := by
    by_cases htd : td.alns = []
    · rw [(afterPop_sentinel popts tk w td htd).2.1, poppedGroups_append]; rfl
    · rw [(afterPop_real popts tk w td htd).2.1, poppedGroups_append]; rfl
  unfold WorkerRefines
  rw [hpopped, Consensus_snoc popts tk garbage td _ hstatus, hlocals]
  by_cases htd : td.alns = []
  · obtain ⟨h1, h2, h3⟩ := afterPop_sentinel popts tk w td htd
    rw [Consensus_whileLoop_sentinel popts tk [] _ htd, h1, h2, h3]
    refine ⟨?_, rfl, ?_⟩
    · simp [WorkerRun.after, WorkerTask.afterPop, htd]
    · simp [WorkerRun.after, bufferOps_append, bufferOps, hops]
  · have hpos : 0 < td.alns.length := List.length_pos.mpr htd
    obtain ⟨h1, h2, h3⟩ := afterPop_real popts tk w td htd
    rw [Consensus.whileLoop]
    simp only [gt_iff_lt, hpos, if_true, h1, h2]
    refine ⟨?_, rfl, ?_⟩
    · simp [WorkerRun.after, WorkerTask.afterPop, hpos]
    · simp only [WorkerRun.after, bufferOps_append, bufferOps, hops, List.append_assoc]
      simp only [WorkerTask.afterPop, gt_iff_lt, hpos, if_true, List.append_cancel_left_eq,
        List.cons_append, List.nil_append, List.cons.injEq, true_and]
      exact bufferOps_of_no_pop _ (Consensus_body_pops_nothing popts tk _)

theorem WorkerRefines_afterPush {G : Type} (popts : ProgramOpts) (tk : AlnToolkit G)
    (garbage : Int) (w : WorkerTask) (r : String) (rest : List String)
    (href : WorkerRefines popts tk garbage w) (hpush : w.toPush = r :: rest) :
    WorkerRefines popts tk garbage (w.afterPush r rest) := by
  obtain ⟨hlocals, hstatus, hops⟩ := href
  have hpopped : poppedGroups (w.afterPush r rest).events = poppedGroups w.events := by
    simp [WorkerTask.afterPush, poppedGroups_append, poppedGroups]
  unfold WorkerRefines
  rw [hpopped]
  refine ⟨hlocals, hstatus, ?_⟩
  rw [hops, hpush]
  simp [WorkerTask.afterPush]

theorem Step_workers_refine {G : Type} (popts : ProgramOpts) (tk : AlnToolkit G)
    (garbage : List Int) (s t : Pipeline)
    (href : ∀ w ∈ s.workers, ∃ g ∈ garbage, WorkerRefines popts tk g w)
    (h : Step popts tk s t) : ∀ w ∈ t.workers, ∃ g ∈ garbage, WorkerRefines popts tk g w := by
  cases h with
  | readerPush td rest hpush hroom => exact href
  | workerPop before w after td rest hw hnone hsaw hbuf =>
    intro x hx
    simp only [List.mem_append, List.mem_cons] at hx
    rcases hx with hx | hx | hx
    · exact href x (by rw [hw]; simp [hx])
    · obtain ⟨g, hg, hwref⟩ := href w (by rw [hw]; simp)
      exact ⟨g, hg, by rw [hx]; exact WorkerRefines_afterPop popts tk g w td hwref hnone hsaw⟩
    · exact href x (by rw [hw]; simp [hx])
  | workerPush before w after r rest hw hpush hroom =>
    intro x hx
    simp only [List.mem_append, List.mem_cons] at hx
    rcases hx with hx | hx | hx
    · exact href x (by rw [hw]; simp [hx])
    · obtain ⟨g, hg, hwref⟩ := href w (by rw [hw]; simp)
      exact ⟨g, hg, by rw [hx]; exact WorkerRefines_afterPush popts tk g w r rest hwref hpush⟩
    · exact href x (by rw [hw]; simp [hx])
  | writerPop cns rest hrun hbuf => exact href

theorem Step_reader_refines {G : Type} (popts : ProgramOpts) (tk : AlnToolkit G)
    (s t : Pipeline) (h : Step popts tk s t) :
    t.reader.pushed ++ t.reader.toPush = s.reader.pushed ++ s.reader.toPush := by
  cases h with
  | readerPush td rest hpush hroom => simp [hpush]
  | workerPop before w after td rest hw hnone hsaw hbuf => rfl
  | workerPush before w after r rest hw hpush hroom => rfl
  | writerPop cns rest hrun hbuf => rfl

/-- In every state an interleaving reaches, each thread of the pipeline is
at a point of the run of its function: the reader has made a prefix of the
pushes of `Reader`, each worker is where `Consensus` is on the groups the
worker has popped, for one of the initial counter values, and the writer
is where `Writer` is on the records it has popped. -/
theorem pipeline_refines_threads {G : Type} (popts : ProgramOpts) (tk : AlnToolkit G)
    (calls : List NextTarget) (garbage : List Int) (k : Nat) (s : Pipeline)
    (hrun : Run popts tk k (Pipeline.init popts calls garbage) s) :
    s.reader.pushed ++ s.reader.toPush = (Reader popts calls).pushed ∧
      (∀ w ∈ s.workers, ∃ g ∈ garbage, WorkerRefines popts tk g w) ∧
      Writer popts s.writer.popped = s.writer.asRun := by
  generalize hinit : Pipeline.init popts calls garbage = s0 at hrun
  induction hrun with
  | start s =>
    subst hinit
    refine ⟨rfl, ?_, rfl⟩
    intro w hw
    simp only [Pipeline.init, List.mem_map] at hw
    obtain ⟨g, hg, rfl⟩ := hw
    exact ⟨g, hg, rfl, rfl, rfl⟩
  | next k s t u _ hstep ih =>
    obtain ⟨hreader, hworkers, hwriter⟩ := ih hinit
    exact ⟨(Step_reader_refines popts tk t u hstep).trans hreader,
      Step_workers_refine popts tk garbage t u hworkers hstep,
      Step_writer_refines popts tk t u hwriter hstep⟩

/-! ## The pipeline: the termination protocol -/

/-- C8. Termination protocol. `main` starts the reader against a provider
that is exhausted without failing (it yields `groups` and then `last`), one
worker per element of `garbage` with `threads = N >= 1` of them, and the
writer, over `trgBuf` of capacity 20 and `cnsBuf` of capacity 10. Then
every interleaving of buffer operations is finite (it has at most as many
operations as `opsLeft` counts at the start); whenever an interleaving can
go no further the protocol has completed: the reader has pushed exactly
`N` sentinels and has ended, each of the `N` workers has popped exactly
one sentinel, has left its loop and has pushed exactly one empty record,
and the writer has returned having popped exactly `N` empty records; if
moreover the provider yields no group with alignments, the writer has
popped exactly `N` empty strings and nothing else and has written
nothing; and an interleaving that can go no further exists. -/
theorem termination_protocol {G : Type} (popts : ProgramOpts) (tk : AlnToolkit G)
    (groups : List TargetData) (last : TargetData) (garbage : List Int)
    (hthreads : 1 ≤ popts.threads) (hint : popts.threads ≤ 2147483647)
    (hworkers : (garbage.length : Int) = popts.threads) :
    (∀ (k : Nat) (s : Pipeline),
      Run popts tk k
          (Pipeline.init popts (groups.map yieldMore ++ [yieldLast last]) garbage) s →
        k ≤ Pipeline.opsLeft popts tk
            (Pipeline.init popts (groups.map yieldMore ++ [yieldLast last]) garbage) ∧
        (Stuck popts tk s →
          Completed popts s ∧
          (forwarded (groups ++ [last]) = [] →
            s.writer.popped = List.replicate garbage.length "" ∧ s.writer.cout = ""))) ∧
      ∃ (k : Nat) (s : Pipeline),
        Run popts tk k
          (Pipeline.init popts (groups.map yieldMore ++ [yieldLast last]) garbage) s ∧
        Stuck popts tk s := by
  refine ⟨?_, exists_run_to_stuck popts tk _ _ rfl⟩
  intro k s hrun
  have hops := Run_opsLeft popts tk k _ s hrun
  have inv := Run_Inv popts tk garbage.length (forwarded (groups ++ [last])) hworkers hint k _ s
    hrun (Inv_init popts groups last garbage hthreads hworkers)
  refine ⟨by omega, fun hstuck => ?_⟩
  have hdone := Stuck_Completed popts tk garbage.length (forwarded (groups ++ [last])) hworkers
    (by omega) (forwarded_nonempty _) s inv hstuck
  refine ⟨hdone, fun hnone => ?_⟩
  have hq := Run_Quiet popts tk k _ s hrun (Quiet_init popts groups last garbage hnone)
  obtain ⟨_, _, _, hpopped, hcout⟩ := hq
  refine ⟨?_, hcout⟩
  have hcount : s.writer.popped.count "" = garbage.length := by
    have := hdone.2.2.2.2.2
    omega
  rw [← hcount]
  exact eq_replicate_of_all_empty _ hpopped

/-- Witness of C8: four workers and a provider whose only call yields no
alignment and reports that no target remains. Every interleaving has at
most 16 buffer operations, and when it can go no further the protocol has
completed, the writer has popped exactly four empty strings and has
written nothing. -/
theorem termination_protocol_witness :
    (∀ (k : Nat) (s : Pipeline),
      Run ⟨4, 6, 500, 10⟩ demoToolkit k
          (Pipeline.init ⟨4, 6, 500, 10⟩ [yieldLast ⟨"", []⟩] [0, 0, 0, 0]) s →
        k ≤ 16 ∧
        (Stuck ⟨4, 6, 500, 10⟩ demoToolkit s →
          Completed ⟨4, 6, 500, 10⟩ s ∧
          s.writer.popped = ["", "", "", ""] ∧ s.writer.cout = "")) ∧
      ∃ (k : Nat) (s : Pipeline),
        Run ⟨4, 6, 500, 10⟩ demoToolkit k
          (Pipeline.init ⟨4, 6, 500, 10⟩ [yieldLast ⟨"", []⟩] [0, 0, 0, 0]) s ∧
        Stuck ⟨4, 6, 500, 10⟩ demoToolkit s :=
  ⟨fun k s hrun =>
      ⟨((termination_protocol ⟨4, 6, 500, 10⟩ demoToolkit [] ⟨"", []⟩ [0, 0, 0, 0]
          (by decide) (by decide) (by decide)).1 k s hrun).1.trans (by decide),
        fun hstuck =>
          ⟨(((termination_protocol ⟨4, 6, 500, 10⟩ demoToolkit [] ⟨"", []⟩ [0, 0, 0, 0]
              (by decide) (by decide) (by decide)).1 k s hrun).2 hstuck).1,
            (((termination_protocol ⟨4, 6, 500, 10⟩ demoToolkit [] ⟨"", []⟩ [0, 0, 0, 0]
              (by decide) (by decide) (by decide)).1 k s hrun).2 hstuck).2 (by decide)⟩⟩,
    (termination_protocol ⟨4, 6, 500, 10⟩ demoToolkit [] ⟨"", []⟩ [0, 0, 0, 0]
      (by decide) (by decide) (by decide)).2⟩

end Dazcon
